import Mathlib

/-!
Shallow embedding of the Remedial-Planner analysis engine
(`parseExcelData` and its helpers): the skill-taxonomy builder, score
normalizer, proficiency classifier, student analyzer, class aggregator and
remedial grouper, together with the JavaScript value semantics
(truthiness, `||`, `String()`, `Number()`) that the source relies on.
Machine numbers are modelled as rationals; spreadsheet rows are
insertion-ordered association lists, as produced by `sheet_to_json`.
-/

namespace RemedialPlanner

/- Batteries marks the rational-number arithmetic irreducible; restore
default reducibility inside this file so that concrete pipeline runs can be
evaluated by `decide` and `rfl`. -/
attribute [local semireducible] Rat.add Rat.sub Rat.mul Rat.inv

/-- A spreadsheet cell value as delivered by `sheet_to_json`: a string, a
number (modelled as a rational), or absent (JS `undefined`). -/
inductive CellValue where
  | str (s : String)
  | num (q : ℚ)
  | absent
deriving DecidableEq, Repr

/-- JS truthiness of a cell value: `undefined`, the empty string and 0 are
falsy. -/
def truthy : CellValue → Bool
  | .absent => false
  | .str s => s != ""
  | .num q => q != 0

/-- JS `a || b`. -/
def jsOr (a b : CellValue) : CellValue := if truthy a then a else b

/-- Decimal digits of a natural number, most significant first. -/
def natDigits (n : ℕ) : List Char :=
  if h : n < 10 then [Char.ofNat (48 + n)]
  else natDigits (n / 10) ++ [Char.ofNat (48 + n % 10)]
decreasing_by exact Nat.div_lt_self (by omega) (by omega)

/-- JS `String.prototype.trim`, implemented structurally on the character
list so that it evaluates by kernel reduction. -/
def jsTrim (s : String) : String :=
  String.mk (((s.data.dropWhile Char.isWhitespace).reverse.dropWhile
    Char.isWhitespace).reverse)

/-- JS `String()` of a cell value. `undefined` renders as `"undefined"`;
integral numbers render as their decimal digits (the only numeric renderings
the analysis consults; a non-integral rational is rendered `num/den`). -/
def jsString : CellValue → String
  | .absent => "undefined"
  | .str s => s
  | .num q =>
      String.mk ((if q.num < 0 then ['-'] else []) ++ natDigits q.num.natAbs ++
        (if q.den = 1 then [] else '/' :: natDigits q.den))

/-- All characters are decimal digits. -/
def allDigits (l : List Char) : Bool := l.all (fun c => c.isDigit)

/-- Numeric value of a digit list. -/
def digitsVal (l : List Char) : ℕ := l.foldl (fun n c => 10 * n + (c.toNat - 48)) 0

/-- Split a character list at every occurrence of a separator, like
`String.splitOn` with a one-character separator. -/
def splitOnChar (c : Char) : List Char → List (List Char)
  | [] => [[]]
  | a :: rest =>
      match splitOnChar c rest with
      | [] => [[a]]
      | h :: t => if a = c then [] :: h :: t else (a :: h) :: t

/-- JS `Number()` on a string, covering decimal literals: a whitespace-only
string is 0; otherwise an optional sign followed by digits with an optional
fractional part; anything else is NaN (`none`). -/
def jsStrToNum (s : String) : Option ℚ :=
  let t := (jsTrim s).data
  if t = [] then some 0
  else
    let sgn : ℚ := if t.head? = some '-' then -1 else 1
    let body := if t.head? = some '-' ∨ t.head? = some '+' then t.tail else t
    match splitOnChar '.' body with
    | [ip] =>
        if ip ≠ [] ∧ allDigits ip then some (sgn * (digitsVal ip : ℚ))
        else none
    | [ip, fp] =>
        if (ip ≠ [] ∨ fp ≠ []) ∧ allDigits ip ∧ allDigits fp then
          some (sgn * ((digitsVal ip : ℚ) +
            (digitsVal fp : ℚ) / (10 : ℚ) ^ fp.length))
        else none
    | _ => none

/-- JS `Number()` of a cell value: numbers pass through, `undefined` is NaN
(`none`), strings are parsed. -/
def jsNumber : CellValue → Option ℚ
  | .absent => none
  | .num q => some q
  | .str s => jsStrToNum s

/-- A JS object with string keys, modelled as an association list in
property-creation order. Creation order is not, in general, the order in
which JS enumerates own properties: `Object.keys`/`Object.values` list
array-index keys (canonical numeric strings below 2^32 - 1) first in
ascending numeric order and only then the remaining keys in creation
order — `jsEnum` below computes that enumeration order. -/
abbrev Record (α : Type) := List (String × α)

/-- Property read `obj[k]`. -/
def rget {α : Type} (m : Record α) (k : String) : Option α :=
  (m.find? (fun p => p.1 == k)).map (fun p => p.2)

/-- Property write `obj[k] = v`: overwrite in place, or append a new key. -/
def rset {α : Type} (m : Record α) (k : String) (v : α) : Record α :=
  if m.any (fun p => p.1 == k) then
    m.map (fun p => if p.1 == k then (k, v) else p)
  else m ++ [(k, v)]

/-- Reading `row[k]` on a spreadsheet row: an absent property is `undefined`. -/
def cell (row : Record CellValue) (k : String) : CellValue := (rget row k).getD .absent

/-- An ECMAScript array-index property key: the canonical decimal string of
an integer n with 0 ≤ n < 2^32 - 1 (no leading zero except "0" itself). -/
def isArrayIndex (s : String) : Bool :=
  match s.data with
  | [] => false
  | c :: cs =>
      c.isDigit && (c != '0' || cs.isEmpty) && cs.all (fun d => d.isDigit) &&
        decide (digitsVal (c :: cs) < 4294967295)

/-- Numeric comparison of array-index keys. -/
def keyLe (a b : String) : Prop := digitsVal a.data ≤ digitsVal b.data

instance : DecidableRel keyLe :=
  fun a b => inferInstanceAs (Decidable (digitsVal a.data ≤ digitsVal b.data))

instance : IsTotal String keyLe := ⟨fun a b => Nat.le_total _ _⟩

instance : IsTrans String keyLe := ⟨fun _ _ _ => Nat.le_trans⟩

/-- `keyLe` lifted to record entries. -/
def idxLe {α : Type} (p q : String × α) : Prop := keyLe p.1 q.1

instance {α : Type} : DecidableRel (@idxLe α) :=
  fun p q => inferInstanceAs (Decidable (keyLe p.1 q.1))

instance {α : Type} : IsTotal (String × α) (@idxLe α) := ⟨fun p q => Nat.le_total _ _⟩

instance {α : Type} : IsTrans (String × α) (@idxLe α) := ⟨fun _ _ _ => Nat.le_trans⟩

/-- JS own-property enumeration order of an object stored in creation
order: array-index keys first, ascending numerically, then the remaining
keys in creation order. This is the order `Object.keys`, `Object.values`
and `for..in` deliver. -/
def jsEnum {α : Type} (m : Record α) : Record α :=
  List.insertionSort idxLe (m.filter (fun p => isArrayIndex p.1)) ++
    m.filter (fun p => !isArrayIndex p.1)

/-- The same reordering on a plain key list. -/
def jsEnumKeys (l : List String) : List String :=
  List.insertionSort keyLe (l.filter (fun s => isArrayIndex s)) ++
    l.filter (fun s => !isArrayIndex s)

/-- The four ordinal proficiency levels. -/
inductive ProficiencyLevel where
  | Strong
  | Moderate
  | Weak
  | Critical
deriving DecidableEq, Repr

structure QuestionMapping where
  questionNo : String
  skillCode : String
  skillDescription : String
  maxMarks : ℚ
deriving DecidableEq, Repr

structure SkillPerformance where
  skillCode : String
  skillDescription : String
  marksEarned : ℚ
  totalMaxMarks : ℚ
  accuracy : ℚ
  level : ProficiencyLevel
deriving DecidableEq, Repr

/-- Per-student analysis record. The source stores the raw name cell in
`studentName` (its TS type says string, but the untouched lookup result is
assigned), so the field keeps the `CellValue`. -/
structure StudentAnalysis where
  studentId : String
  studentName : CellValue
  overallScore : ℚ
  skillPerformances : List SkillPerformance
  weakestSkills : List SkillPerformance
deriving DecidableEq, Repr

structure SkillStat where
  skillCode : String
  description : String
  avgAccuracy : ℚ
  strongCount : ℕ
  moderateCount : ℕ
  weakCount : ℕ
  criticalCount : ℕ
deriving DecidableEq, Repr

structure RemedialGroup where
  id : String
  skillCode : String
  skillDescription : String
  students : List StudentAnalysis
deriving DecidableEq, Repr

structure ClassAnalysis where
  students : List StudentAnalysis
  skillStats : Record SkillStat
  weakestSkillsClasswide : List String
  groups : List RemedialGroup
deriving DecidableEq, Repr

/-- Source line 156: `String(row[..] || row[..] || row[..]).trim()`. -/
def resolvedQNo (row : Record CellValue) : String :=
  jsTrim (jsString (jsOr (jsOr (cell row "Question No") (cell row "QuestionNo"))
    (cell row "q_no")))

/-- Source line 157: `String(row[..] || row[..]).trim()`. -/
def resolvedSCode (row : Record CellValue) : String :=
  jsTrim (jsString (jsOr (cell row "Skill Code") (cell row "SkillCode")))

/-- Source line 158. -/
def resolvedSDesc (row : Record CellValue) : String :=
  jsTrim (jsString (jsOr (cell row "Skill Description") (cell row "SkillDescription")))

/-- Source line 159: `Number(row[..] || row[..])`; `none` is NaN. -/
def resolvedMax (row : Record CellValue) : Option ℚ :=
  jsNumber (jsOr (cell row "Max Marks") (cell row "MaxMarks"))

/-- One step of the QuestionsMapping fold (source lines 154-170): resolve the
aliased fields with `||`, stringify and trim, then register the row unless
the question number or skill code is the empty string or the max marks value
is NaN. -/
def taxStep (st : Record QuestionMapping × Record String) (row : Record CellValue) :
    Record QuestionMapping × Record String :=
  let qNo := resolvedQNo row
  let sCode := resolvedSCode row
  let sDesc := resolvedSDesc row
  match resolvedMax row with
  | some mx =>
      if qNo ≠ "" ∧ sCode ≠ "" then
        (rset st.1 qNo ⟨qNo, sCode, sDesc, mx⟩, rset st.2 sCode sDesc)
      else st
  | none => st

/-- Skill-taxonomy builder: the question table and skill-metadata table. -/
def buildTaxonomy (rows : List (Record CellValue)) :
    Record QuestionMapping × Record String :=
  rows.foldl taxStep ([], [])

/-- Proficiency classifier (source lines 217-220): strict thresholds at
50, 70 and 80. -/
def classify (accuracy : ℚ) : ProficiencyLevel :=
  if accuracy < 50 then .Critical
  else if accuracy < 70 then .Weak
  else if accuracy < 80 then .Moderate
  else .Strong

/-- Add earned/max marks to the accumulator entry of a skill code. -/
def racc (acc : Record (ℚ × ℚ)) (code : String) (dE dM : ℚ) : Record (ℚ × ℚ) :=
  acc.map (fun p => if p.1 == code then (p.1, (p.2.1 + dE, p.2.2 + dM)) else p)

/-- One step of the per-column score fold (source lines 193-210): a column
whose trimmed key is a known question number and whose value parses as a
number contributes `min score maxMarks` earned and `maxMarks` possible, both
to the question's skill and to the row totals. -/
def scoreStep (questionMap : Record QuestionMapping)
    (st : Record (ℚ × ℚ) × ℚ × ℚ) (kv : String × CellValue) :
    Record (ℚ × ℚ) × ℚ × ℚ :=
  match rget questionMap (jsTrim kv.1) with
  | some mapping =>
      match jsNumber kv.2 with
      | some score =>
          let safeScore := min score mapping.maxMarks
          (racc st.1 mapping.skillCode safeScore mapping.maxMarks,
            st.2.1 + safeScore, st.2.2 + mapping.maxMarks)
      | none => st
  | none => st

/-- The source's accuracy expression (lines 215 and 232):
`max > 0 ? earned / max * 100 : 0`. -/
def accuracyOf (e m : ℚ) : ℚ := if m > 0 then e / m * 100 else 0

/-- Accuracy and level of one accumulator entry (source lines 213-230). -/
def mkPerf (skillMetadata : Record String) (p : String × ℚ × ℚ) : SkillPerformance :=
  let accuracy : ℚ := accuracyOf p.2.1 p.2.2
  ⟨p.1, (rget skillMetadata p.1).getD "undefined", p.2.1, p.2.2, accuracy, classify accuracy⟩

/-- Ascending-accuracy comparison used by the weakest-skills sort; the JS
numeric comparator is a stable ascending sort. -/
def accLe (a b : SkillPerformance) : Prop := a.accuracy ≤ b.accuracy

instance : DecidableRel accLe :=
  fun a b => inferInstanceAs (Decidable (a.accuracy ≤ b.accuracy))

instance : IsTotal SkillPerformance accLe := ⟨fun a b => le_total a.accuracy b.accuracy⟩

instance : IsTrans SkillPerformance accLe := ⟨fun _ _ _ => le_trans⟩

/-- Accumulator seeding (source lines 185-187): one (0,0) entry per known
skill code, inserted in the order `Object.keys(skillMetadata)` enumerates
them. -/
def seedAcc (skillMetadata : Record String) : Record (ℚ × ℚ) :=
  (jsEnum skillMetadata).map (fun p => (p.1, ((0 : ℚ), (0 : ℚ))))

/-- The whole per-row score accumulation (source lines 182-210): accumulator
seeded with every known skill code at (0,0), then one `scoreStep` per column
of the row, in `Object.keys(row)` enumeration order (the sums do not depend
on it); the second and third components are the row totals. -/
def scoreFold (questionMap : Record QuestionMapping) (skillMetadata : Record String)
    (row : Record CellValue) : Record (ℚ × ℚ) × ℚ × ℚ :=
  (jsEnum row).foldl (scoreStep questionMap) (seedAcc skillMetadata, (0 : ℚ), (0 : ℚ))

/-- The student analyzer (source lines 176-241): `none` when the row lacks a
truthy name or its stringified id is empty; otherwise accumulate scores per
skill (accumulator seeded with every known skill code) and build the
`StudentAnalysis`. -/
def processStudent (questionMap : Record QuestionMapping) (skillMetadata : Record String)
    (row : Record CellValue) : Option StudentAnalysis :=
  let name := jsOr (cell row "Student Name") (cell row "StudentName")
  let id := jsString (jsOr (cell row "Student ID") (cell row "StudentID"))
  if ¬ truthy name ∨ id = "" then none
  else
    let res := scoreFold questionMap skillMetadata row
    -- Object.keys(skillAccumulator) at line 213: the accumulator was given
    -- its keys in the enumeration order of skillMetadata and never gains
    -- one, so its stored order is already its own enumeration order.
    let perfs := res.1.map (mkPerf skillMetadata)
    some ⟨id, name, accuracyOf res.2.1 res.2.2, perfs,
      List.insertionSort accLe (perfs.filter (fun s => decide (s.accuracy < 70)))⟩

/-- Class-level statistics for one skill (source lines 244-259). -/
def mkStat (skillMetadata : Record String) (students : List StudentAnalysis)
    (code : String) : SkillStat :=
  let studentSkills :=
    students.filterMap (fun s => s.skillPerformances.find? (fun sp => sp.skillCode == code))
  let totalAcc := studentSkills.foldl (fun acc curr => acc + curr.accuracy) 0
  let avg : ℚ := if studentSkills.length ≠ 0 then totalAcc / (studentSkills.length : ℚ) else 0
  ⟨code, (rget skillMetadata code).getD "undefined", avg,
    (studentSkills.filter (fun s => s.level == ProficiencyLevel.Strong)).length,
    (studentSkills.filter (fun s => s.level == ProficiencyLevel.Moderate)).length,
    (studentSkills.filter (fun s => s.level == ProficiencyLevel.Weak)).length,
    (studentSkills.filter (fun s => s.level == ProficiencyLevel.Critical)).length⟩

/-- The class aggregator (source lines 244-259): one `SkillStat` per known
skill code, in `Object.keys(skillMetadata)` enumeration order. The stats
record therefore stores its keys in its own enumeration order, so
`Object.values(skillStats)` at line 261 is plain `.map (fun p => p.2)`. -/
def mkSkillStats (skillMetadata : Record String) (students : List StudentAnalysis) :
    Record SkillStat :=
  (jsEnum skillMetadata).foldl
    (fun stats p => rset stats p.1 (mkStat skillMetadata students p.1)) []

/-- Ascending-average-accuracy comparison for the class-wide ranking. -/
def statLe (a b : SkillStat) : Prop := a.avgAccuracy ≤ b.avgAccuracy

instance : DecidableRel statLe :=
  fun a b => inferInstanceAs (Decidable (a.avgAccuracy ≤ b.avgAccuracy))

instance : IsTotal SkillStat statLe := ⟨fun a b => le_total a.avgAccuracy b.avgAccuracy⟩

instance : IsTrans SkillStat statLe := ⟨fun _ _ _ => le_trans⟩

/-- Class-wide weakest skills (source lines 261-264): sort the stat values
ascending by average accuracy, take the first three codes. -/
def classwideWeakest (stats : Record SkillStat) : List String :=
  ((List.insertionSort statLe (stats.map (fun p => p.2))).take 3).map (fun s => s.skillCode)

/-- First element of a student's `weakestSkills` list, the student's primary
weakness (source line 272). -/
def primaryCode (st : StudentAnalysis) : Option String :=
  st.weakestSkills.head?.map (fun pw => pw.skillCode)

/-- One step of the grouping fold (source lines 269-283): create the group on
first encounter, then append the student. -/
def groupStep (gm : Record RemedialGroup) (st : StudentAnalysis) : Record RemedialGroup :=
  match st.weakestSkills with
  | [] => gm
  | pw :: _ =>
      match rget gm pw.skillCode with
      | some g =>
          rset gm pw.skillCode ⟨g.id, g.skillCode, g.skillDescription, g.students ++ [st]⟩
      | none =>
          gm ++ [(pw.skillCode,
            ⟨"group-" ++ pw.skillCode, pw.skillCode, pw.skillDescription, [st]⟩)]

/-- The remedial grouper (source lines 266-283). -/
def buildGroups (students : List StudentAnalysis) : Record RemedialGroup :=
  students.foldl groupStep []

/-- A parsed workbook: sheet name to that sheet's `sheet_to_json` rows. -/
structure Workbook where
  sheets : Record (List (Record CellValue))
deriving DecidableEq

def sheetNames (wb : Workbook) : List String := wb.sheets.map (fun p => p.1)

def mappingRowsOf (wb : Workbook) : List (Record CellValue) :=
  (rget wb.sheets "QuestionsMapping").getD []

def resultsRowsOf (wb : Workbook) : List (Record CellValue) :=
  (rget wb.sheets "StudentResults").getD []

/-- The analysis pipeline over the two sheets (source lines 147-290). The
source maps rows to `StudentAnalysis | null` and filters out null, which is
`filterMap`. -/
def analyze (mRows rRows : List (Record CellValue)) : ClassAnalysis :=
  let tax := buildTaxonomy mRows
  let students := rRows.filterMap (processStudent tax.1 tax.2)
  let stats := mkSkillStats tax.2 students
  -- Object.values(groupsMap) at line 289: the groups map acquires its keys
  -- at arbitrary points of the student pass, so JS enumeration order must
  -- be applied here.
  ⟨students, stats, classwideWeakest stats,
    (jsEnum (buildGroups students)).map (fun p => p.2)⟩

/-- `parseExcelData` (source lines 134-298): sheet-name validation followed
by the pipeline. The fatal FormatError on a missing sheet is `Except.error`
(no partial result is produced). -/
def parseExcelData (wb : Workbook) : Except String ClassAnalysis :=
  if "QuestionsMapping" ∈ sheetNames wb ∧ "StudentResults" ∈ sheetNames wb then
    Except.ok (analyze (mappingRowsOf wb) (resultsRowsOf wb))
  else
    Except.error "Invalid File: Must contain \x27QuestionsMapping\x27 and \x27StudentResults\x27 sheets."

/-- Two-sheet workbook constructor used by the concrete test inputs. -/
def mkWB (m r : List (Record CellValue)) : Workbook :=
  ⟨[("QuestionsMapping", m), ("StudentResults", r)]⟩

/-! ### Association-list record lemmas -/

theorem rget_cons_self {α : Type} {p : String × α} {m : Record α} {k : String}
    (h : p.1 = k) : rget (p :: m) k = some p.2 := by
  simp [rget, List.find?_cons_of_pos, h]

theorem rget_cons_ne {α : Type} {p : String × α} {m : Record α} {k : String}
    (h : p.1 ≠ k) : rget (p :: m) k = rget m k := by
  simp only [rget]
  rw [List.find?_cons_of_neg _ (by simp [h])]

theorem rget_pair_cons_self {α : Type} {a : String} {b : α} {m : Record α} {k : String}
    (h : a = k) : rget ((a, b) :: m) k = some b := by
  simp [rget, List.find?_cons_of_pos, h]

theorem rget_pair_cons_ne {α : Type} {a : String} {b : α} {m : Record α} {k : String}
    (h : a ≠ k) : rget ((a, b) :: m) k = rget m k := by
  simp only [rget]
  rw [List.find?_cons_of_neg _ (by simp [h])]

theorem rget_eq_none_iff {α : Type} {m : Record α} {k : String} :
    rget m k = none ↔ ∀ p ∈ m, p.1 ≠ k := by
  simp [rget, List.find?_eq_none]

theorem rget_mem {α : Type} {m : Record α} {k : String} {v : α}
    (h : rget m k = some v) : (k, v) ∈ m := by
  unfold rget at h
  cases hf : m.find? (fun p => p.1 == k) with
  | none => rw [hf] at h; simp at h
  | some p =>
    rw [hf] at h
    have hv : p.2 = v := by simpa using h
    have hk := List.find?_some hf
    have hm : p ∈ m := List.mem_of_find?_eq_some hf
    have hp : p = (k, v) := by
      obtain ⟨a, b⟩ := p
      simp only [beq_iff_eq] at hk
      simp only at hv
      rw [hk, ← hv]
    rwa [hp] at hm

theorem rget_isSome_iff {α : Type} {m : Record α} {k : String} :
    (rget m k).isSome = true ↔ k ∈ m.map Prod.fst := by
  induction m with
  | nil => simp [rget]
  | cons p m ih =>
    by_cases hp : p.1 = k
    · rw [rget_cons_self hp]
      simp [hp]
    · rw [rget_cons_ne hp]
      simp only [List.map_cons, List.mem_cons]
      rw [ih]
      constructor
      · exact Or.inr
      · rintro (h | h)
        · exact absurd h.symm hp
        · exact h

theorem mem_keys_of_rget {α : Type} {m : Record α} {k : String} {v : α}
    (h : rget m k = some v) : k ∈ m.map Prod.fst := by
  rw [← rget_isSome_iff, h]
  rfl

theorem rget_of_mem_nodupKeys {α : Type} {m : Record α} {k : String} {v : α}
    (hnd : (m.map Prod.fst).Nodup) (h : (k, v) ∈ m) : rget m k = some v := by
  induction m with
  | nil => simp at h
  | cons p m ih =>
    simp only [List.map_cons, List.nodup_cons] at hnd
    rcases List.mem_cons.mp h with h | h
    · rw [rget_cons_self (by rw [← h])]
      rw [← h]
    · have hp : p.1 ≠ k := by
        intro hk
        exact hnd.1 (hk ▸ (List.mem_map.mpr ⟨(k, v), h, rfl⟩))
      rw [rget_cons_ne hp]
      exact ih hnd.2 h

theorem values_eq_of_mem_nodupKeys {α : Type} {m : Record α} {k : String} {v w : α}
    (hnd : (m.map Prod.fst).Nodup) (hv : (k, v) ∈ m) (hw : (k, w) ∈ m) : v = w := by
  have h1 := rget_of_mem_nodupKeys hnd hv
  have h2 := rget_of_mem_nodupKeys hnd hw
  rw [h1] at h2
  exact Option.some.inj h2

theorem rget_map_update_self {α : Type} {m : Record α} {k : String} (v : α)
    (h : ∃ p ∈ m, p.1 = k) :
    rget (m.map (fun p => if p.1 == k then (k, v) else p)) k = some v := by
  induction m with
  | nil => simp at h
  | cons p m ih =>
    simp only [List.map_cons]
    by_cases hp : p.1 = k
    · rw [if_pos (by simp [hp])]
      exact rget_cons_self rfl
    · rw [if_neg (by simp [hp])]
      rw [rget_cons_ne hp]
      apply ih
      rcases h with ⟨q, hq, hk⟩
      rcases List.mem_cons.mp hq with hq | hq
      · exact absurd (hq ▸ hk) hp
      · exact ⟨q, hq, hk⟩

theorem rget_map_update_ne {α : Type} {m : Record α} {k k2 : String} (v : α)
    (hne : k2 ≠ k) :
    rget (m.map (fun p => if p.1 == k then (k, v) else p)) k2 = rget m k2 := by
  induction m with
  | nil => simp
  | cons p m ih =>
    simp only [List.map_cons]
    by_cases hp : p.1 = k
    · rw [if_pos (by simp [hp])]
      rw [rget_cons_ne (fun hk => hne hk.symm), rget_cons_ne (hp ▸ (fun hk => hne hk.symm))]
      exact ih
    · rw [if_neg (by simp [hp])]
      by_cases hp2 : p.1 = k2
      · rw [rget_cons_self hp2, rget_cons_self hp2]
      · rw [rget_cons_ne hp2, rget_cons_ne hp2]
        exact ih

theorem rget_append_singleton_ne {α : Type} {m : Record α} {k k2 : String} (v : α)
    (hne : k2 ≠ k) : rget (m ++ [(k, v)]) k2 = rget m k2 := by
  induction m with
  | nil =>
    simp only [List.nil_append]
    rw [rget_cons_ne (fun hk => hne hk.symm)]
  | cons p m ih =>
    rw [List.cons_append]
    by_cases hp2 : p.1 = k2
    · rw [rget_cons_self hp2, rget_cons_self hp2]
    · rw [rget_cons_ne hp2, rget_cons_ne hp2]
      exact ih

theorem rget_append_singleton_self {α : Type} {m : Record α} {k : String} (v : α)
    (h : ∀ p ∈ m, p.1 ≠ k) : rget (m ++ [(k, v)]) k = some v := by
  induction m with
  | nil => exact rget_cons_self rfl
  | cons p m ih =>
    rw [List.cons_append, rget_cons_ne (h p (List.mem_cons_self p m))]
    exact ih (fun q hq => h q (List.mem_cons_of_mem p hq))

theorem rget_rset_self {α : Type} (m : Record α) (k : String) (v : α) :
    rget (rset m k v) k = some v := by
  unfold rset
  by_cases h : m.any (fun p => p.1 == k)
  · rw [if_pos h]
    simp only [List.any_eq_true, beq_iff_eq] at h
    exact rget_map_update_self v h
  · rw [if_neg h]
    simp only [List.any_eq_true, beq_iff_eq] at h
    push_neg at h
    exact rget_append_singleton_self v h

theorem rget_rset_ne {α : Type} (m : Record α) (k k2 : String) (v : α)
    (hne : k2 ≠ k) : rget (rset m k v) k2 = rget m k2 := by
  unfold rset
  by_cases h : m.any (fun p => p.1 == k)
  · rw [if_pos h]
    exact rget_map_update_ne v hne
  · rw [if_neg h]
    exact rget_append_singleton_ne v hne

theorem mem_rset {α : Type} {m : Record α} {k : String} {v : α} {p : String × α}
    (h : p ∈ rset m k v) : p = (k, v) ∨ (p ∈ m ∧ p.1 ≠ k) := by
  unfold rset at h
  by_cases hany : m.any (fun q => q.1 == k)
  · rw [if_pos hany] at h
    obtain ⟨q, hq, hqp⟩ := List.mem_map.mp h
    by_cases hqk : q.1 = k
    · left
      rw [← hqp, if_pos (by simp [hqk])]
    · right
      rw [← hqp, if_neg (by simp [hqk])]
      exact ⟨hq, hqk⟩
  · rw [if_neg hany] at h
    simp only [List.any_eq_true, beq_iff_eq] at hany
    push_neg at hany
    rcases List.mem_append.mp h with h | h
    · exact Or.inr ⟨h, hany p h⟩
    · left
      simpa using h

theorem keys_rset_of_mem {α : Type} {m : Record α} {k : String} (v : α)
    (h : k ∈ m.map Prod.fst) : (rset m k v).map Prod.fst = m.map Prod.fst := by
  unfold rset
  rw [if_pos]
  · rw [List.map_map]
    apply List.map_congr_left
    intro p _
    by_cases hp : p.1 = k
    · simp [hp]
    · simp [hp]
  · simp only [List.any_eq_true, beq_iff_eq]
    obtain ⟨p, hp, hk⟩ := List.mem_map.mp h
    exact ⟨p, hp, hk⟩

theorem keys_rset_of_not_mem {α : Type} {m : Record α} {k : String} (v : α)
    (h : k ∉ m.map Prod.fst) : (rset m k v).map Prod.fst = m.map Prod.fst ++ [k] := by
  unfold rset
  rw [if_neg]
  · simp
  · simp only [List.any_eq_true, beq_iff_eq]
    push_neg
    intro p hp
    exact fun hk => h (List.mem_map.mpr ⟨p, hp, hk⟩)

theorem nodupKeys_rset {α : Type} {m : Record α} {k : String} (v : α)
    (h : (m.map Prod.fst).Nodup) : ((rset m k v).map Prod.fst).Nodup := by
  by_cases hk : k ∈ m.map Prod.fst
  · rw [keys_rset_of_mem v hk]
    exact h
  · rw [keys_rset_of_not_mem v hk]
    simp only [List.nodup_append, List.nodup_cons, List.not_mem_nil, not_false_iff,
      List.nodup_nil, and_true, true_and]
    constructor
    · exact h
    · intro a ha
      simp only [List.mem_singleton]
      intro hak
      exact hk (hak ▸ ha)

/-! ### JS enumeration-order lemmas -/

theorem jsEnum_perm {α : Type} (m : Record α) : (jsEnum m).Perm m := by
  unfold jsEnum
  refine List.Perm.trans (List.Perm.append ?_ (List.Perm.refl _))
    (List.filter_append_perm _ m)
  exact List.perm_insertionSort _ _

theorem mem_jsEnum {α : Type} {m : Record α} {p : String × α} :
    p ∈ jsEnum m ↔ p ∈ m :=
  (jsEnum_perm m).mem_iff

theorem length_jsEnum {α : Type} (m : Record α) : (jsEnum m).length = m.length :=
  (jsEnum_perm m).length_eq

theorem keys_jsEnum_perm {α : Type} (m : Record α) :
    ((jsEnum m).map Prod.fst).Perm (m.map Prod.fst) :=
  (jsEnum_perm m).map Prod.fst

theorem nodupKeys_jsEnum {α : Type} {m : Record α} (h : (m.map Prod.fst).Nodup) :
    ((jsEnum m).map Prod.fst).Nodup :=
  ((keys_jsEnum_perm m).nodup_iff).mpr h

theorem map_fst_filter_key {α : Type} (q : String → Bool) (m : Record α) :
    (m.filter (fun p => q p.1)).map Prod.fst = (m.map Prod.fst).filter q := by
  induction m with
  | nil => rfl
  | cons p m ih =>
    by_cases hp : q p.1
    · simp [List.filter_cons, hp, ih]
    · simp [List.filter_cons, hp, ih]

theorem keys_jsEnum {α : Type} (m : Record α) :
    (jsEnum m).map Prod.fst = jsEnumKeys (m.map Prod.fst) := by
  unfold jsEnum jsEnumKeys
  rw [List.map_append]
  congr 1
  · rw [List.map_insertionSort idxLe keyLe Prod.fst _ (fun a _ b _ => Iff.rfl)]
    rw [map_fst_filter_key isArrayIndex m]
  · exact map_fst_filter_key (fun s => !isArrayIndex s) m

/-- With no array-index key present, JS enumeration is creation order. -/
theorem jsEnumKeys_eq_self {l : List String} (h : ∀ c ∈ l, isArrayIndex c = false) :
    jsEnumKeys l = l := by
  unfold jsEnumKeys
  have h1 : l.filter (fun s => isArrayIndex s) = [] := by
    rw [List.filter_eq_nil_iff]
    intro a ha
    simp [h a ha]
  have h2 : l.filter (fun s => !isArrayIndex s) = l := by
    rw [List.filter_eq_self]
    intro a ha
    simp [h a ha]
  rw [h1, h2]
  rfl

/-! ### JS string rendering lemmas -/

theorem natDigits_ne_nil (n : ℕ) : natDigits n ≠ [] := by
  rw [natDigits]
  split
  · simp
  · simp

theorem jsString_num_ne_empty (q : ℚ) : jsString (.num q) ≠ "" := by
  simp only [jsString]
  intro h
  have hd : ((if q.num < 0 then ['-'] else []) ++ natDigits q.num.natAbs ++
      (if q.den = 1 then [] else '/' :: natDigits q.den)) = ([] : List Char) := by
    have h2 := congrArg String.data h
    simpa using h2
  rw [List.append_assoc] at hd
  rcases List.append_eq_nil.mp hd with ⟨_, hd2⟩
  rcases List.append_eq_nil.mp hd2 with ⟨hd3, _⟩
  exact natDigits_ne_nil _ hd3

/-- The only cell value whose JS stringification is empty is the empty
string itself. -/
theorem jsString_eq_empty_iff {v : CellValue} : jsString v = "" ↔ v = .str "" := by
  cases v with
  | str s => simp [jsString]
  | num q =>
    refine ⟨fun h => absurd h (jsString_num_ne_empty q), fun h => by cases h⟩
  | absent =>
    refine ⟨fun h => absurd h (by decide), fun h => by cases h⟩

/-! ### Step equations for the three folds -/

theorem scoreStep_eq_unknown {qm : Record QuestionMapping}
    {st : Record (ℚ × ℚ) × ℚ × ℚ} {kv : String × CellValue}
    (hq : rget qm (jsTrim kv.1) = none) : scoreStep qm st kv = st := by
  simp [scoreStep, hq]

theorem scoreStep_eq_nan {qm : Record QuestionMapping}
    {st : Record (ℚ × ℚ) × ℚ × ℚ} {kv : String × CellValue} {mp : QuestionMapping}
    (hq : rget qm (jsTrim kv.1) = some mp) (hn : jsNumber kv.2 = none) :
    scoreStep qm st kv = st := by
  simp [scoreStep, hq, hn]

theorem scoreStep_eq_hit {qm : Record QuestionMapping}
    {st : Record (ℚ × ℚ) × ℚ × ℚ} {kv : String × CellValue} {mp : QuestionMapping}
    {score : ℚ} (hq : rget qm (jsTrim kv.1) = some mp) (hn : jsNumber kv.2 = some score) :
    scoreStep qm st kv =
      (racc st.1 mp.skillCode (min score mp.maxMarks) mp.maxMarks,
        st.2.1 + min score mp.maxMarks, st.2.2 + mp.maxMarks) := by
  simp [scoreStep, hq, hn]

/-! ### Accumulator lemmas -/

theorem keys_racc (acc : Record (ℚ × ℚ)) (code : String) (dE dM : ℚ) :
    (racc acc code dE dM).map Prod.fst = acc.map Prod.fst := by
  unfold racc
  rw [List.map_map]
  apply List.map_congr_left
  intro p _
  simp only [Function.comp]
  by_cases hp : p.1 = code
  · simp [hp]
  · simp [hp]

theorem rget_racc_ne (acc : Record (ℚ × ℚ)) (code c2 : String) (dE dM : ℚ)
    (h : c2 ≠ code) : rget (racc acc code dE dM) c2 = rget acc c2 := by
  unfold racc
  induction acc with
  | nil => simp
  | cons p m ih =>
    simp only [List.map_cons]
    by_cases hp : p.1 = code
    · have hp2 : p.1 ≠ c2 := fun he => h (by rw [← he, hp])
      rw [if_pos (by simp [hp])]
      rw [rget_pair_cons_ne hp2, rget_cons_ne hp2]
      exact ih
    · rw [if_neg (by simp [hp])]
      by_cases hp2 : p.1 = c2
      · rw [rget_cons_self hp2, rget_cons_self hp2]
      · rw [rget_cons_ne hp2, rget_cons_ne hp2]
        exact ih

theorem mem_racc {acc : Record (ℚ × ℚ)} {code : String} {dE dM : ℚ}
    {p : String × ℚ × ℚ} (h : p ∈ racc acc code dE dM) :
    ∃ p0 ∈ acc, p.1 = p0.1 ∧ (p.2 = p0.2 ∨ p.2 = (p0.2.1 + dE, p0.2.2 + dM)) := by
  unfold racc at h
  obtain ⟨p0, hp0, hpe⟩ := List.mem_map.mp h
  refine ⟨p0, hp0, ?_⟩
  by_cases hk : p0.1 = code
  · rw [← hpe, if_pos (by simp [hk])]
    exact ⟨rfl, Or.inr rfl⟩
  · rw [← hpe, if_neg (by simp [hk])]
    exact ⟨rfl, Or.inl rfl⟩

theorem rget_map_zero (l : Record String) (k : String) :
    rget (l.map (fun p => (p.1, ((0 : ℚ), (0 : ℚ))))) k =
      (rget l k).map (fun _ => ((0 : ℚ), (0 : ℚ))) := by
  induction l with
  | nil => simp [rget]
  | cons p m ih =>
    simp only [List.map_cons]
    by_cases hp : p.1 = k
    · rw [rget_pair_cons_self hp, rget_cons_self hp]
      rfl
    · rw [rget_pair_cons_ne hp, rget_cons_ne hp]
      exact ih

theorem rget_seedAcc (sm : Record String) (k : String) :
    rget (seedAcc sm) k = (rget (jsEnum sm) k).map (fun _ => ((0 : ℚ), (0 : ℚ))) :=
  rget_map_zero (jsEnum sm) k

theorem keys_seedAcc (sm : Record String) :
    (seedAcc sm).map Prod.fst = (jsEnum sm).map Prod.fst := by
  unfold seedAcc
  rw [List.map_map]
  rfl

theorem mem_seedAcc {sm : Record String} {p : String × ℚ × ℚ}
    (h : p ∈ seedAcc sm) : p.2 = ((0 : ℚ), (0 : ℚ)) := by
  unfold seedAcc at h
  obtain ⟨p0, _, hpe⟩ := List.mem_map.mp h
  rw [← hpe]

/-! ### Score-fold lemmas -/

/-- A column contributes to skill `code` when its trimmed key is a known
question mapped to `code` and its value parses as a number. -/
def contributes (qm : Record QuestionMapping) (kv : String × CellValue)
    (code : String) : Prop :=
  ∃ mp, rget qm (jsTrim kv.1) = some mp ∧ mp.skillCode = code ∧ (jsNumber kv.2).isSome

/-- A student row answered a skill when some of its columns contributes to
it; the negation is the "never answered" condition of the specification. -/
def answered (qm : Record QuestionMapping) (row : Record CellValue)
    (code : String) : Prop :=
  ∃ kv ∈ row, contributes qm kv code

theorem scoreStep_keys (qm : Record QuestionMapping)
    (st : Record (ℚ × ℚ) × ℚ × ℚ) (kv : String × CellValue) :
    ((scoreStep qm st kv).1).map Prod.fst = st.1.map Prod.fst := by
  rcases hq : rget qm (jsTrim kv.1) with _ | mp
  · rw [scoreStep_eq_unknown hq]
  · rcases hn : jsNumber kv.2 with _ | score
    · rw [scoreStep_eq_nan hq hn]
    · rw [scoreStep_eq_hit hq hn]
      exact keys_racc _ _ _ _

theorem foldl_scoreStep_keys (qm : Record QuestionMapping) :
    ∀ (row : List (String × CellValue)) (st : Record (ℚ × ℚ) × ℚ × ℚ),
      ((row.foldl (scoreStep qm) st).1).map Prod.fst = st.1.map Prod.fst := by
  intro row
  induction row with
  | nil => intro st; rfl
  | cons kv row ih =>
    intro st
    rw [List.foldl_cons, ih, scoreStep_keys]

theorem scoreFold_keys (qm : Record QuestionMapping) (sm : Record String)
    (row : Record CellValue) :
    ((scoreFold qm sm row).1).map Prod.fst = (jsEnum sm).map Prod.fst := by
  unfold scoreFold
  rw [foldl_scoreStep_keys, keys_seedAcc]

theorem foldl_scoreStep_untouched {qm : Record QuestionMapping} {code : String} :
    ∀ (row : List (String × CellValue)) (st : Record (ℚ × ℚ) × ℚ × ℚ),
      (∀ kv ∈ row, ¬ contributes qm kv code) →
      rget ((row.foldl (scoreStep qm) st).1) code = rget st.1 code := by
  intro row
  induction row with
  | nil => intro st _; rfl
  | cons kv row ih =>
    intro st h
    rw [List.foldl_cons, ih _ (fun k hk => h k (List.mem_cons_of_mem kv hk))]
    have hkv := h kv (List.mem_cons_self kv row)
    rcases hq : rget qm (jsTrim kv.1) with _ | mp
    · rw [scoreStep_eq_unknown hq]
    · rcases hn : jsNumber kv.2 with _ | score
      · rw [scoreStep_eq_nan hq hn]
      · rw [scoreStep_eq_hit hq hn]
        have hc : mp.skillCode ≠ code := by
          intro hcc
          exact hkv ⟨mp, hq, hcc, by rw [hn]; rfl⟩
        exact rget_racc_ne _ _ _ _ _ (fun he => hc he.symm)

theorem scoreFold_untouched {qm : Record QuestionMapping} {sm : Record String}
    {row : Record CellValue} {code : String} (h : ¬ answered qm row code) :
    rget ((scoreFold qm sm row).1) code = rget (seedAcc sm) code := by
  unfold scoreFold
  exact foldl_scoreStep_untouched (jsEnum row) _
    (fun kv hkv hc => h ⟨kv, mem_jsEnum.mp hkv, hc⟩)

/-- Earned never exceeds possible: preserved by every score step, for each
accumulator entry and for the row totals. -/
theorem foldl_scoreStep_le {qm : Record QuestionMapping} :
    ∀ (row : List (String × CellValue)) (st : Record (ℚ × ℚ) × ℚ × ℚ),
      (∀ p ∈ st.1, p.2.1 ≤ p.2.2) → st.2.1 ≤ st.2.2 →
      (∀ p ∈ (row.foldl (scoreStep qm) st).1, p.2.1 ≤ p.2.2) ∧
        (row.foldl (scoreStep qm) st).2.1 ≤ (row.foldl (scoreStep qm) st).2.2 := by
  intro row
  induction row with
  | nil => intro st h1 h2; exact ⟨h1, h2⟩
  | cons kv row ih =>
    intro st h1 h2
    rw [List.foldl_cons]
    apply ih
    · rcases hq : rget qm (jsTrim kv.1) with _ | mp
      · rw [scoreStep_eq_unknown hq]; exact h1
      · rcases hn : jsNumber kv.2 with _ | score
        · rw [scoreStep_eq_nan hq hn]; exact h1
        · rw [scoreStep_eq_hit hq hn]
          intro p hp
          obtain ⟨p0, hp0, hfst, hsnd⟩ := mem_racc hp
          have hbase := h1 p0 hp0
          have hmin : min score mp.maxMarks ≤ mp.maxMarks := min_le_right _ _
          rcases hsnd with hsnd | hsnd
          · rw [hsnd]; exact hbase
          · rw [hsnd]; simp only; linarith
    · rcases hq : rget qm (jsTrim kv.1) with _ | mp
      · rw [scoreStep_eq_unknown hq]; exact h2
      · rcases hn : jsNumber kv.2 with _ | score
        · rw [scoreStep_eq_nan hq hn]; exact h2
        · rw [scoreStep_eq_hit hq hn]
          have hmin : min score mp.maxMarks ≤ mp.maxMarks := min_le_right _ _
          simp only
          linarith

theorem scoreFold_le (qm : Record QuestionMapping) (sm : Record String)
    (row : Record CellValue) :
    (∀ p ∈ (scoreFold qm sm row).1, p.2.1 ≤ p.2.2) ∧
      (scoreFold qm sm row).2.1 ≤ (scoreFold qm sm row).2.2 := by
  unfold scoreFold
  apply foldl_scoreStep_le
  · intro p hp
    rw [mem_seedAcc hp]
  · exact le_refl 0

/-- With nonnegative parseable scores and nonnegative registered max marks,
earned totals stay nonnegative. -/
theorem foldl_scoreStep_nonneg {qm : Record QuestionMapping}
    (hqm : ∀ p ∈ qm, 0 ≤ p.2.maxMarks) :
    ∀ (row : List (String × CellValue)) (st : Record (ℚ × ℚ) × ℚ × ℚ),
      (∀ kv ∈ row, ∀ q : ℚ, jsNumber kv.2 = some q → 0 ≤ q) →
      (∀ p ∈ st.1, 0 ≤ p.2.1) → 0 ≤ st.2.1 →
      (∀ p ∈ (row.foldl (scoreStep qm) st).1, 0 ≤ p.2.1) ∧
        0 ≤ (row.foldl (scoreStep qm) st).2.1 := by
  intro row
  induction row with
  | nil => intro st _ h1 h2; exact ⟨h1, h2⟩
  | cons kv row ih =>
    intro st hrow h1 h2
    rw [List.foldl_cons]
    have hsafe : ∀ mp score, rget qm (jsTrim kv.1) = some mp → jsNumber kv.2 = some score →
        0 ≤ min score mp.maxMarks := by
      intro mp score hq hn
      have hs := hrow kv (List.mem_cons_self kv row) score hn
      have hm := hqm (jsTrim kv.1, mp) (rget_mem hq)
      exact le_min hs hm
    apply ih _ (fun k hk => hrow k (List.mem_cons_of_mem kv hk))
    · rcases hq : rget qm (jsTrim kv.1) with _ | mp
      · rw [scoreStep_eq_unknown hq]; exact h1
      · rcases hn : jsNumber kv.2 with _ | score
        · rw [scoreStep_eq_nan hq hn]; exact h1
        · rw [scoreStep_eq_hit hq hn]
          intro p hp
          obtain ⟨p0, hp0, hfst, hsnd⟩ := mem_racc hp
          have hbase := h1 p0 hp0
          rcases hsnd with hsnd | hsnd
          · rw [hsnd]; exact hbase
          · rw [hsnd]
            simp only
            have := hsafe mp score hq hn
            linarith
    · rcases hq : rget qm (jsTrim kv.1) with _ | mp
      · rw [scoreStep_eq_unknown hq]; exact h2
      · rcases hn : jsNumber kv.2 with _ | score
        · rw [scoreStep_eq_nan hq hn]; exact h2
        · rw [scoreStep_eq_hit hq hn]
          simp only
          have := hsafe mp score hq hn
          linarith

theorem scoreFold_nonneg {qm : Record QuestionMapping} (sm : Record String)
    {row : Record CellValue}
    (hqm : ∀ p ∈ qm, 0 ≤ p.2.maxMarks)
    (hrow : ∀ kv ∈ row, ∀ q : ℚ, jsNumber kv.2 = some q → 0 ≤ q) :
    (∀ p ∈ (scoreFold qm sm row).1, 0 ≤ p.2.1) ∧ 0 ≤ (scoreFold qm sm row).2.1 := by
  unfold scoreFold
  apply foldl_scoreStep_nonneg hqm (jsEnum row) _
    (fun kv hkv => hrow kv (mem_jsEnum.mp hkv))
  · intro p hp
    rw [mem_seedAcc hp]
  · exact le_refl 0

/-! ### Accuracy bounds -/

theorem accuracyOf_le_100 {e m : ℚ} (h : e ≤ m) : accuracyOf e m ≤ 100 := by
  unfold accuracyOf
  split
  · rename_i hm
    have hdiv : e / m ≤ 1 := by
      rw [div_le_one hm]
      exact h
    nlinarith
  · norm_num

theorem accuracyOf_nonneg {e m : ℚ} (he : 0 ≤ e) : 0 ≤ accuracyOf e m := by
  unfold accuracyOf
  split
  · rename_i hm
    positivity
  · norm_num

/-! ### Pipeline destructuring -/

theorem processStudent_proj {qm : Record QuestionMapping} {sm : Record String}
    {row : Record CellValue} {st : StudentAnalysis}
    (h : processStudent qm sm row = some st) :
    st.skillPerformances = ((scoreFold qm sm row).1).map (mkPerf sm) ∧
      st.weakestSkills = List.insertionSort accLe
        (st.skillPerformances.filter (fun s => decide (s.accuracy < 70))) ∧
      st.overallScore = accuracyOf (scoreFold qm sm row).2.1 (scoreFold qm sm row).2.2 := by
  unfold processStudent at h
  dsimp only at h
  split at h
  · exact absurd h (by simp)
  · rw [Option.some.injEq] at h
    rw [← h]
    exact ⟨rfl, rfl, rfl⟩

theorem processStudent_none_iff {qm : Record QuestionMapping} {sm : Record String}
    {row : Record CellValue} :
    processStudent qm sm row = none ↔
      (¬ truthy (jsOr (cell row "Student Name") (cell row "StudentName")) ∨
        jsString (jsOr (cell row "Student ID") (cell row "StudentID")) = "") := by
  unfold processStudent
  dsimp only
  split
  · rename_i hcond
    simp only [true_iff]
    exact hcond
  · rename_i hcond
    constructor
    · intro h
      simp at h
    · intro h
      exact absurd h hcond

theorem parse_ok_iff {wb : Workbook} {ca : ClassAnalysis} :
    parseExcelData wb = Except.ok ca ↔
      ("QuestionsMapping" ∈ sheetNames wb ∧ "StudentResults" ∈ sheetNames wb) ∧
        ca = analyze (mappingRowsOf wb) (resultsRowsOf wb) := by
  unfold parseExcelData
  split
  · rename_i hmem
    simp only [Except.ok.injEq]
    constructor
    · intro h
      exact ⟨hmem, h.symm⟩
    · intro h
      exact h.2.symm
  · rename_i hmem
    constructor
    · intro h
      simp at h
    · intro h
      exact absurd h.1 hmem

theorem analyze_students (m r : List (Record CellValue)) :
    (analyze m r).students =
      r.filterMap (processStudent (buildTaxonomy m).1 (buildTaxonomy m).2) := rfl

theorem analyze_skillStats (m r : List (Record CellValue)) :
    (analyze m r).skillStats =
      mkSkillStats (buildTaxonomy m).2 ((analyze m r).students) := rfl

theorem analyze_weakestClasswide (m r : List (Record CellValue)) :
    (analyze m r).weakestSkillsClasswide = classwideWeakest ((analyze m r).skillStats) := rfl

theorem analyze_groups (m r : List (Record CellValue)) :
    (analyze m r).groups =
      (jsEnum (buildGroups ((analyze m r).students))).map (fun p => p.2) := rfl

/-! ### Taxonomy key uniqueness -/

theorem taxStep_nodup {st : Record QuestionMapping × Record String}
    {row : Record CellValue}
    (h1 : (st.1.map Prod.fst).Nodup) (h2 : (st.2.map Prod.fst).Nodup) :
    (((taxStep st row).1).map Prod.fst).Nodup ∧ (((taxStep st row).2).map Prod.fst).Nodup := by
  unfold taxStep
  dsimp only
  split
  · split
    · exact ⟨nodupKeys_rset _ h1, nodupKeys_rset _ h2⟩
    · exact ⟨h1, h2⟩
  · exact ⟨h1, h2⟩

theorem foldl_taxStep_nodup :
    ∀ (rows : List (Record CellValue)) (st : Record QuestionMapping × Record String),
      (st.1.map Prod.fst).Nodup → (st.2.map Prod.fst).Nodup →
      (((rows.foldl taxStep st).1).map Prod.fst).Nodup ∧
        (((rows.foldl taxStep st).2).map Prod.fst).Nodup := by
  intro rows
  induction rows with
  | nil => intro st h1 h2; exact ⟨h1, h2⟩
  | cons row rows ih =>
    intro st h1 h2
    rw [List.foldl_cons]
    obtain ⟨g1, g2⟩ := taxStep_nodup h1 h2
    exact ih _ g1 g2

theorem buildTaxonomy_nodup (rows : List (Record CellValue)) :
    (((buildTaxonomy rows).1).map Prod.fst).Nodup ∧
      (((buildTaxonomy rows).2).map Prod.fst).Nodup := by
  unfold buildTaxonomy
  exact foldl_taxStep_nodup rows ([], []) (by simp) (by simp)

/-! ### Stability of the accuracy sort -/

theorem filter_acc_orderedInsert (a : SkillPerformance) (l : List SkillPerformance) (q : ℚ) :
    (List.orderedInsert accLe a l).filter (fun s => s.accuracy == q) =
      if a.accuracy == q then a :: l.filter (fun s => s.accuracy == q)
      else l.filter (fun s => s.accuracy == q) := by
  induction l with
  | nil =>
    rw [List.orderedInsert_nil, List.filter_cons]
  | cons b l ih =>
    rw [List.orderedInsert]
    by_cases hab : accLe a b
    · rw [if_pos hab, List.filter_cons]
    · rw [if_neg hab, List.filter_cons]
      by_cases hbq : b.accuracy = q
      · have hanq : ¬ a.accuracy = q := by
          intro haq
          apply hab
          unfold accLe
          rw [haq, hbq]
        rw [if_pos (by simp [hbq]), ih, if_neg (by simp [hanq]), if_neg (by simp [hanq]),
          List.filter_cons, if_pos (by simp [hbq])]
      · rw [if_neg (by simp [hbq]), ih]
        by_cases haq : a.accuracy = q
        · rw [if_pos (by simp [haq]), if_pos (by simp [haq]),
            List.filter_cons, if_neg (by simp [hbq])]
        · rw [if_neg (by simp [haq]), if_neg (by simp [haq]),
            List.filter_cons, if_neg (by simp [hbq])]

/-- Stability: restricting the sorted list to any single accuracy value
reproduces the original order of those elements. -/
theorem filter_acc_insertionSort (l : List SkillPerformance) (q : ℚ) :
    (List.insertionSort accLe l).filter (fun s => s.accuracy == q) =
      l.filter (fun s => s.accuracy == q) := by
  induction l with
  | nil => rfl
  | cons a l ih =>
    rw [List.insertionSort, filter_acc_orderedInsert, ih, List.filter_cons]

/-! ### Counting lemmas -/

theorem four_level_partition (l : List SkillPerformance) :
    (l.filter (fun s => s.level == ProficiencyLevel.Strong)).length +
      (l.filter (fun s => s.level == ProficiencyLevel.Moderate)).length +
      (l.filter (fun s => s.level == ProficiencyLevel.Weak)).length +
      (l.filter (fun s => s.level == ProficiencyLevel.Critical)).length = l.length := by
  induction l with
  | nil => rfl
  | cons a l ih =>
    cases ha : a.level <;>
      simp only [List.filter_cons, ha] <;>
      simp <;>
      omega

theorem length_filterMap_of_isSome {α β : Type} {l : List α} {f : α → Option β}
    (h : ∀ a ∈ l, (f a).isSome) : (l.filterMap f).length = l.length := by
  induction l with
  | nil => rfl
  | cons a l ih =>
    rw [List.filterMap_cons]
    cases hf : f a with
    | none => exact absurd (hf ▸ h a (List.mem_cons_self a l)) (by simp)
    | some b =>
      simp only [List.length_cons]
      rw [ih (fun x hx => h x (List.mem_cons_of_mem a hx))]

/-! ### First-occurrence deduplication -/

/-- First-occurrence deduplication helper carrying the set of already-seen
elements (structural, so that it evaluates by kernel reduction). -/
def firstDedupAux (seen : List String) : List String → List String
  | [] => []
  | a :: l =>
      if a ∈ seen then firstDedupAux seen l
      else a :: firstDedupAux (a :: seen) l

/-- Deduplication keeping the first occurrence of each element, the order in
which a JS object acquires its keys. -/
def firstDedup (l : List String) : List String := firstDedupAux [] l

theorem mem_firstDedupAux :
    ∀ {l seen : List String} {x : String},
      x ∈ firstDedupAux seen l ↔ (x ∈ l ∧ x ∉ seen) := by
  intro l
  induction l with
  | nil =>
    intro seen x
    simp [firstDedupAux]
  | cons a l ih =>
    intro seen x
    rw [firstDedupAux]
    by_cases ha : a ∈ seen
    · rw [if_pos ha, ih]
      simp only [List.mem_cons]
      constructor
      · rintro ⟨h1, h2⟩
        exact ⟨Or.inr h1, h2⟩
      · rintro ⟨h1 | h1, h2⟩
        · exact absurd (h1 ▸ ha) h2
        · exact ⟨h1, h2⟩
    · rw [if_neg ha]
      simp only [List.mem_cons, ih]
      constructor
      · rintro (rfl | ⟨h1, h2⟩)
        · exact ⟨Or.inl rfl, ha⟩
        · exact ⟨Or.inr h1, fun hx => h2 (Or.inr hx)⟩
      · rintro ⟨hx, h2⟩
        by_cases hxa : x = a
        · exact Or.inl hxa
        · right
          rcases hx with hx | hx
          · exact absurd hx hxa
          · refine ⟨hx, fun hm => ?_⟩
            rcases hm with h3 | h3
            · exact hxa h3
            · exact h2 h3

theorem mem_firstDedup : ∀ {l : List String} {x : String}, x ∈ firstDedup l ↔ x ∈ l := by
  intro l x
  rw [firstDedup, mem_firstDedupAux]
  simp

theorem nodup_firstDedupAux :
    ∀ (l seen : List String), (firstDedupAux seen l).Nodup := by
  intro l
  induction l with
  | nil =>
    intro seen
    simp [firstDedupAux]
  | cons a l ih =>
    intro seen
    rw [firstDedupAux]
    by_cases ha : a ∈ seen
    · rw [if_pos ha]
      exact ih seen
    · rw [if_neg ha]
      refine List.nodup_cons.mpr ⟨?_, ih (a :: seen)⟩
      rw [mem_firstDedupAux]
      rintro ⟨_, h2⟩
      exact h2 (List.mem_cons_self a seen)

theorem nodup_firstDedup (l : List String) : (firstDedup l).Nodup :=
  nodup_firstDedupAux l []

theorem firstDedupAux_append_of_mem :
    ∀ (l seen : List String) (c : String), (c ∈ l ∨ c ∈ seen) →
      firstDedupAux seen (l ++ [c]) = firstDedupAux seen l := by
  intro l
  induction l with
  | nil =>
    intro seen c hc
    have hcs : c ∈ seen := by
      rcases hc with hc | hc
      · simp at hc
      · exact hc
    simp [firstDedupAux, hcs]
  | cons a l ih =>
    intro seen c hc
    rw [List.cons_append, firstDedupAux, firstDedupAux]
    by_cases ha : a ∈ seen
    · rw [if_pos ha, if_pos ha]
      apply ih
      rcases hc with hc | hc
      · rcases List.mem_cons.mp hc with rfl | hc
        · exact Or.inr ha
        · exact Or.inl hc
      · exact Or.inr hc
    · rw [if_neg ha, if_neg ha]
      congr 1
      apply ih
      rcases hc with hc | hc
      · rcases List.mem_cons.mp hc with rfl | hc
        · exact Or.inr (List.mem_cons_self c seen)
        · exact Or.inl hc
      · exact Or.inr (List.mem_cons_of_mem a hc)

theorem firstDedupAux_append_of_not_mem :
    ∀ (l seen : List String) (c : String), c ∉ l → c ∉ seen →
      firstDedupAux seen (l ++ [c]) = firstDedupAux seen l ++ [c] := by
  intro l
  induction l with
  | nil =>
    intro seen c _ hcs
    simp [firstDedupAux, hcs]
  | cons a l ih =>
    intro seen c hcl hcs
    have hca : c ≠ a := by
      intro h
      exact hcl (h ▸ List.mem_cons_self a l)
    have hcl2 : c ∉ l := fun h => hcl (List.mem_cons_of_mem a h)
    rw [List.cons_append, firstDedupAux, firstDedupAux]
    by_cases ha : a ∈ seen
    · rw [if_pos ha, if_pos ha]
      exact ih seen c hcl2 hcs
    · rw [if_neg ha, if_neg ha, List.cons_append]
      congr 1
      apply ih _ c hcl2
      intro hm
      rcases List.mem_cons.mp hm with h3 | h3
      · exact hca h3
      · exact hcs h3

theorem firstDedup_append_of_mem : ∀ (l : List String) (c : String), c ∈ l →
    firstDedup (l ++ [c]) = firstDedup l := by
  intro l c hc
  exact firstDedupAux_append_of_mem l [] c (Or.inl hc)

theorem firstDedup_append_of_not_mem : ∀ (l : List String) (c : String), c ∉ l →
    firstDedup (l ++ [c]) = firstDedup l ++ [c] := by
  intro l c hc
  exact firstDedupAux_append_of_not_mem l [] c hc (by simp)

/-! ### Grouping fold invariant -/

theorem groupStep_eq_empty {gm : Record RemedialGroup} {st : StudentAnalysis}
    (h : st.weakestSkills = []) : groupStep gm st = gm := by
  simp [groupStep, h]

theorem groupStep_eq_existing {gm : Record RemedialGroup} {st : StudentAnalysis}
    {pw : SkillPerformance} {rest : List SkillPerformance} {g : RemedialGroup}
    (hw : st.weakestSkills = pw :: rest) (hg : rget gm pw.skillCode = some g) :
    groupStep gm st =
      rset gm pw.skillCode ⟨g.id, g.skillCode, g.skillDescription, g.students ++ [st]⟩ := by
  simp [groupStep, hw, hg]

theorem groupStep_eq_new {gm : Record RemedialGroup} {st : StudentAnalysis}
    {pw : SkillPerformance} {rest : List SkillPerformance}
    (hw : st.weakestSkills = pw :: rest) (hg : rget gm pw.skillCode = none) :
    groupStep gm st = gm ++
      [(pw.skillCode, ⟨"group-" ++ pw.skillCode, pw.skillCode, pw.skillDescription, [st]⟩)] := by
  simp [groupStep, hw, hg]

/-- Invariant of the grouping fold after processing a prefix of students:
every stored group carries its key as skill code, the standard id, and
exactly the processed students whose primary weakness is that key, in input
order; the key list is the first-occurrence deduplication of the
processed students' primary weaknesses. -/
def groupInv (processed : List StudentAnalysis) (gm : Record RemedialGroup) : Prop :=
  (∀ p ∈ gm, p.2.skillCode = p.1 ∧ p.2.id = "group-" ++ p.1 ∧
    p.2.students = processed.filter (fun st => primaryCode st == some p.1)) ∧
  gm.map Prod.fst = firstDedup (processed.filterMap primaryCode)

theorem groupStep_inv {processed : List StudentAnalysis} {gm : Record RemedialGroup}
    {st : StudentAnalysis} (h : groupInv processed gm) :
    groupInv (processed ++ [st]) (groupStep gm st) := by
  obtain ⟨hent, hkeys⟩ := h
  cases hw : st.weakestSkills with
  | nil =>
    rw [groupStep_eq_empty hw]
    have hpc : primaryCode st = none := by simp [primaryCode, hw]
    constructor
    · intro p hp
      obtain ⟨h1, h2, h3⟩ := hent p hp
      refine ⟨h1, h2, ?_⟩
      rw [List.filter_append, h3]
      have hone : List.filter (fun s => primaryCode s == some p.1) [st] = [] := by
        simp [hpc]
      rw [hone, List.append_nil]
    · rw [List.filterMap_append, hkeys]
      have hone : List.filterMap primaryCode [st] = [] := by simp [hpc]
      rw [hone, List.append_nil]
  | cons pw rest =>
    have hpc : primaryCode st = some pw.skillCode := by simp [primaryCode, hw]
    cases hg : rget gm pw.skillCode with
    | some g =>
      rw [groupStep_eq_existing hw hg]
      obtain ⟨hg1, hg2, hg3⟩ := hent _ (rget_mem hg)
      constructor
      · intro p hp
        rcases mem_rset hp with hp | ⟨hp, hpne⟩
        · rw [hp]
          refine ⟨hg1, hg2, ?_⟩
          simp only
          rw [hg3, List.filter_append]
          have hone : List.filter (fun s => primaryCode s == some pw.skillCode) [st] = [st] := by
            simp [hpc]
          rw [hone]
        · obtain ⟨h1, h2, h3⟩ := hent p hp
          refine ⟨h1, h2, ?_⟩
          rw [List.filter_append, h3]
          have hone : List.filter (fun s => primaryCode s == some p.1) [st] = [] := by
            simp only [List.filter_cons, List.filter_nil, hpc]
            rw [if_neg]
            simp only [beq_iff_eq, Option.some.injEq]
            exact fun he => hpne he.symm
          rw [hone, List.append_nil]
      · rw [keys_rset_of_mem _ (mem_keys_of_rget hg)]
        rw [hkeys, List.filterMap_append]
        have hone : List.filterMap primaryCode [st] = [pw.skillCode] := by simp [hpc]
        rw [hone, firstDedup_append_of_mem]
        have hmm : pw.skillCode ∈ gm.map Prod.fst := mem_keys_of_rget hg
        rw [hkeys] at hmm
        exact mem_firstDedup.mp hmm
    | none =>
      rw [groupStep_eq_new hw hg]
      have hknot : pw.skillCode ∉ gm.map Prod.fst := by
        intro hmem
        rw [← rget_isSome_iff, hg] at hmem
        simp at hmem
      have hnotproc : pw.skillCode ∉ processed.filterMap primaryCode := by
        intro hmm
        exact hknot (hkeys ▸ mem_firstDedup.mpr hmm)
      constructor
      · intro p hp
        rcases List.mem_append.mp hp with hp | hp
        · obtain ⟨h1, h2, h3⟩ := hent p hp
          have hpne : p.1 ≠ pw.skillCode :=
            fun he => hknot (he ▸ List.mem_map.mpr ⟨p, hp, rfl⟩)
          refine ⟨h1, h2, ?_⟩
          rw [List.filter_append, h3]
          have hone : List.filter (fun s => primaryCode s == some p.1) [st] = [] := by
            simp only [List.filter_cons, List.filter_nil, hpc]
            rw [if_neg]
            simp only [beq_iff_eq, Option.some.injEq]
            exact fun he => hpne he.symm
          rw [hone, List.append_nil]
        · have hp2 : p = (pw.skillCode,
              ⟨"group-" ++ pw.skillCode, pw.skillCode, pw.skillDescription, [st]⟩) := by
            simpa using hp
          rw [hp2]
          refine ⟨rfl, rfl, ?_⟩
          simp only
          have hnil : processed.filter (fun s => primaryCode s == some pw.skillCode) = [] := by
            rw [List.filter_eq_nil_iff]
            intro s hs
            simp only [beq_iff_eq]
            intro heq
            exact hnotproc (List.mem_filterMap.mpr ⟨s, hs, heq⟩)
          rw [List.filter_append, hnil, List.nil_append]
          simp [hpc]
      · rw [List.map_append, hkeys, List.filterMap_append]
        have hone : List.filterMap primaryCode [st] = [pw.skillCode] := by simp [hpc]
        rw [hone, firstDedup_append_of_not_mem _ _ hnotproc]
        rfl

theorem foldl_groupStep_inv :
    ∀ (l processed : List StudentAnalysis) (gm : Record RemedialGroup),
      groupInv processed gm → groupInv (processed ++ l) (l.foldl groupStep gm) := by
  intro l
  induction l with
  | nil =>
    intro processed gm h
    simpa using h
  | cons st l ih =>
    intro processed gm h
    rw [List.foldl_cons]
    have h2 := ih (processed ++ [st]) _ (groupStep_inv h)
    rwa [List.append_assoc, List.singleton_append] at h2

theorem buildGroups_inv (students : List StudentAnalysis) :
    groupInv students (buildGroups students) := by
  have h0 : groupInv [] ([] : Record RemedialGroup) := by
    constructor
    · intro p hp
      simp at hp
    · simp [firstDedup, firstDedupAux]
  have h2 := foldl_groupStep_inv students [] [] h0
  simpa using h2

/-! ### Concrete test inputs and their evaluated outputs -/

/-- Demo mapping sheet: Q1,Q4 → skill A (max 5 each), Q2 → B (max 5),
Q3 → C (max 10). -/
def demoMapping : List (Record CellValue) :=
  [ [("Question No", .str "Q1"), ("Skill Code", .str "A"),
     ("Skill Description", .str "dA"), ("Max Marks", .num 5)],
    [("Question No", .str "Q2"), ("Skill Code", .str "B"),
     ("Skill Description", .str "dB"), ("Max Marks", .num 5)],
    [("Question No", .str "Q3"), ("Skill Code", .str "C"),
     ("Skill Description", .str "dC"), ("Max Marks", .num 10)],
    [("Question No", .str "Q4"), ("Skill Code", .str "A"),
     ("Skill Description", .str "dA"), ("Max Marks", .num 5)] ]

/-- A results row with no usable name: silently dropped by the analyzer. -/
def rowNoName : Record CellValue := [("Student ID", .str "9"), ("Q1", .num 5)]

def rowBob : Record CellValue :=
  [("Student Name", .str "Bob"), ("Student ID", .str "1"),
   ("Q1", .num 5), ("Q2", .num 0), ("Q3", .num 10), ("Q4", .num 5)]

def rowAmy : Record CellValue :=
  [("Student Name", .str "Amy"), ("Student ID", .str "2"),
   ("Q1", .num 2), ("Q2", .num 4), ("Q3", .num 3), ("Q4", .num 1)]

def demoResults : List (Record CellValue) := [rowBob, rowAmy, rowNoName]

def wbDemo : Workbook := mkWB demoMapping demoResults

def spBobA : SkillPerformance := ⟨"A", "dA", 10, 10, 100, .Strong⟩
def spBobB : SkillPerformance := ⟨"B", "dB", 0, 5, 0, .Critical⟩
def spBobC : SkillPerformance := ⟨"C", "dC", 10, 10, 100, .Strong⟩
def spAmyA : SkillPerformance := ⟨"A", "dA", 3, 10, 30, .Critical⟩
def spAmyB : SkillPerformance := ⟨"B", "dB", 4, 5, 80, .Strong⟩
def spAmyC : SkillPerformance := ⟨"C", "dC", 3, 10, 30, .Critical⟩

def bobDemo : StudentAnalysis :=
  ⟨"1", .str "Bob", 80, [spBobA, spBobB, spBobC], [spBobB]⟩

def amyDemo : StudentAnalysis :=
  ⟨"2", .str "Amy", 40, [spAmyA, spAmyB, spAmyC], [spAmyA, spAmyC]⟩

def statADemo : SkillStat := ⟨"A", "dA", 65, 1, 0, 0, 1⟩
def statBDemo : SkillStat := ⟨"B", "dB", 40, 1, 0, 0, 1⟩
def statCDemo : SkillStat := ⟨"C", "dC", 65, 1, 0, 0, 1⟩

/-- The full pipeline output on the demo workbook. -/
def caDemo : ClassAnalysis :=
  ⟨[bobDemo, amyDemo],
   [("A", statADemo), ("B", statBDemo), ("C", statCDemo)],
   ["B", "A", "C"],
   [⟨"group-B", "B", "dB", [bobDemo]⟩, ⟨"group-A", "A", "dA", [amyDemo]⟩]⟩

instance {e a : Type} [DecidableEq e] [DecidableEq a] : DecidableEq (Except e a) := fun x y =>
  match x, y with
  | .ok v, .ok w =>
      if h : v = w then isTrue (by rw [h]) else isFalse (fun he => by cases he; exact h rfl)
  | .error v, .error w =>
      if h : v = w then isTrue (by rw [h]) else isFalse (fun he => by cases he; exact h rfl)
  | .ok _, .error _ => isFalse (fun he => by cases he)
  | .error _, .ok _ => isFalse (fun he => by cases he)

/-- Concrete fact: running the pipeline on the demo workbook yields exactly
`caDemo`; used to discharge hypotheses of the claim witnesses. -/
theorem parse_wbDemo : parseExcelData wbDemo = Except.ok caDemo := by decide

/-- A mapping row registering question Q1 with max 5 for skill A. -/
def rowQ1A : Record CellValue :=
  [("Question No", .str "Q1"), ("Skill Code", .str "A"),
   ("Skill Description", .str "dA"), ("Max Marks", .num 5)]

/-- One-question mapping sheet. -/
def mappingA : List (Record CellValue) := [rowQ1A]

/-- Workbook whose single student has a negative raw score on Q1. -/
def wbNeg : Workbook := mkWB mappingA
  [ [("Student Name", .str "Bob"), ("Student ID", .str "1"), ("Q1", .num (-5))] ]

def spNeg : SkillPerformance := ⟨"A", "dA", -5, 5, -100, .Critical⟩

def stNeg : StudentAnalysis := ⟨"1", .str "Bob", -100, [spNeg], [spNeg]⟩

def caNeg : ClassAnalysis :=
  ⟨[stNeg], [("A", ⟨"A", "dA", -100, 0, 0, 0, 1⟩)], ["A"],
   [⟨"group-A", "A", "dA", [stNeg]⟩]⟩

/-- Workbook whose single results row has a student name but no id cell at
all. -/
def wbNoId : Workbook := mkWB mappingA [ [("Student Name", .str "Ben")] ]

def spNoId : SkillPerformance := ⟨"A", "dA", 0, 0, 0, .Critical⟩

def stNoId : StudentAnalysis := ⟨"undefined", .str "Ben", 0, [spNoId], [spNoId]⟩

def caNoId : ClassAnalysis :=
  ⟨[stNoId], [("A", ⟨"A", "dA", 0, 0, 0, 0, 1⟩)], ["A"],
   [⟨"group-A", "A", "dA", [stNoId]⟩]⟩

/-- A mapping row whose only max-marks cell holds the finite number 0. -/
def rowMaxZero : Record CellValue :=
  [("Question No", .str "Q1"), ("Skill Code", .str "A"),
   ("Skill Description", .str "d"), ("Max Marks", .num 0)]

/-- Workbook whose two skill codes are the array-index strings "10" and "2";
the first student fails skill 10, the second fails skill 2. -/
def wbNum : Workbook := mkWB
  [ [("Question No", .str "Q1"), ("Skill Code", .str "10"),
     ("Skill Description", .str "dX"), ("Max Marks", .num 5)],
    [("Question No", .str "Q2"), ("Skill Code", .str "2"),
     ("Skill Description", .str "dY"), ("Max Marks", .num 5)] ]
  [ [("Student Name", .str "Ann"), ("Student ID", .str "1"),
     ("Q1", .num 0), ("Q2", .num 5)],
    [("Student Name", .str "Ben"), ("Student ID", .str "2"),
     ("Q1", .num 5), ("Q2", .num 0)] ]

def sp2Ann : SkillPerformance := ⟨"2", "dY", 5, 5, 100, .Strong⟩
def sp10Ann : SkillPerformance := ⟨"10", "dX", 0, 5, 0, .Critical⟩
def sp2Ben : SkillPerformance := ⟨"2", "dY", 0, 5, 0, .Critical⟩
def sp10Ben : SkillPerformance := ⟨"10", "dX", 5, 5, 100, .Strong⟩

def stAnn : StudentAnalysis := ⟨"1", .str "Ann", 50, [sp2Ann, sp10Ann], [sp10Ann]⟩

def stBen : StudentAnalysis := ⟨"2", .str "Ben", 50, [sp2Ben, sp10Ben], [sp2Ben]⟩

/-- The pipeline output on `wbNum`: the groups list is enumerated with the
array-index keys in ascending numeric order — group-2 before group-10 —
although Ann, with primary weakness 10, precedes Ben in the input. -/
def caNum : ClassAnalysis :=
  ⟨[stAnn, stBen],
   [("2", ⟨"2", "dY", 50, 1, 0, 0, 1⟩), ("10", ⟨"10", "dX", 50, 1, 0, 0, 1⟩)],
   ["2", "10"],
   [⟨"group-2", "2", "dY", [stBen]⟩, ⟨"group-10", "10", "dX", [stAnn]⟩]⟩

/-! ### Further pipeline helpers -/

theorem taxStep_eq_nan {s : Record QuestionMapping × Record String}
    {row : Record CellValue} (h : resolvedMax row = none) : taxStep s row = s := by
  simp [taxStep, h]

theorem taxStep_eq_skip {s : Record QuestionMapping × Record String}
    {row : Record CellValue} {mx : ℚ} (h : resolvedMax row = some mx)
    (h2 : resolvedQNo row = "" ∨ resolvedSCode row = "") : taxStep s row = s := by
  simp only [taxStep, h]
  rw [if_neg]
  rcases h2 with h2 | h2
  · exact fun hc => hc.1 h2
  · exact fun hc => hc.2 h2

theorem taxStep_eq_register {s : Record QuestionMapping × Record String}
    {row : Record CellValue} {mx : ℚ} (h : resolvedMax row = some mx)
    (h1 : resolvedQNo row ≠ "") (h2 : resolvedSCode row ≠ "") :
    taxStep s row =
      (rset s.1 (resolvedQNo row)
        ⟨resolvedQNo row, resolvedSCode row, resolvedSDesc row, mx⟩,
       rset s.2 (resolvedSCode row) (resolvedSDesc row)) := by
  simp only [taxStep, h]
  rw [if_pos ⟨h1, h2⟩]

theorem mappingRowsOf_mkWB (m r : List (Record CellValue)) :
    mappingRowsOf (mkWB m r) = m := rfl

theorem resultsRowsOf_mkWB (m r : List (Record CellValue)) :
    resultsRowsOf (mkWB m r) = r := rfl

theorem parse_mkWB (m r : List (Record CellValue)) :
    parseExcelData (mkWB m r) = Except.ok (analyze m r) := by
  apply parse_ok_iff.mpr
  refine ⟨⟨by simp [mkWB, sheetNames], by simp [mkWB, sheetNames]⟩, ?_⟩
  rw [mappingRowsOf_mkWB, resultsRowsOf_mkWB]

theorem analyze_eq_of_students {m r1 r2 : List (Record CellValue)}
    (h : r1.filterMap (processStudent (buildTaxonomy m).1 (buildTaxonomy m).2) =
      r2.filterMap (processStudent (buildTaxonomy m).1 (buildTaxonomy m).2)) :
    analyze m r1 = analyze m r2 := by
  unfold analyze
  dsimp only
  rw [h]

/-! ## Claim theorems -/

/-- C1: For every accuracy value a, the proficiency level computed by the
pipeline is Critical if a < 50, Weak if 50 ≤ a < 70, Moderate if
70 ≤ a < 80, and Strong if a ≥ 80; in particular accuracy exactly 80 yields
Strong, exactly 70 yields Moderate, and exactly 50 yields Weak. The last
conjunct ties the classifier to the pipeline: every level stored in a
pipeline output equals `classify` of the stored accuracy. -/
theorem C1_classifier_thresholds :
    (∀ a : ℚ, (a < 50 → classify a = .Critical) ∧
      (50 ≤ a → a < 70 → classify a = .Weak) ∧
      (70 ≤ a → a < 80 → classify a = .Moderate) ∧
      (80 ≤ a → classify a = .Strong)) ∧
    classify 80 = .Strong ∧ classify 70 = .Moderate ∧ classify 50 = .Weak ∧
    (∀ (wb : Workbook) (ca : ClassAnalysis), parseExcelData wb = Except.ok ca →
      ∀ st ∈ ca.students, ∀ sp ∈ st.skillPerformances,
        sp.level = classify sp.accuracy) := by
  refine ⟨?_, by decide, by decide, by decide, ?_⟩
  · intro a
    refine ⟨fun h => ?_, fun h1 h2 => ?_, fun h1 h2 => ?_, fun h => ?_⟩ <;>
      unfold classify <;> split_ifs <;> first | rfl | linarith
  · intro wb ca hok st hst sp hsp
    obtain ⟨hms, hca⟩ := parse_ok_iff.mp hok
    subst hca
    rw [analyze_students] at hst
    obtain ⟨row, hrow, hps⟩ := List.mem_filterMap.mp hst
    obtain ⟨hperfs, hweak, hov⟩ := processStudent_proj hps
    rw [hperfs] at hsp
    obtain ⟨p, hp, hpe⟩ := List.mem_map.mp hsp
    rw [← hpe]
    rfl

/-- Witness for C1 at the concrete accuracy 55. -/
theorem C1_witness : classify 55 = ProficiencyLevel.Weak :=
  (C1_classifier_thresholds.1 55).2.1 (by norm_num) (by norm_num)

/-- C3 counterexample: the claim says every accuracy lies in [0,100], but on
the workbook `wbNeg`, whose single student has raw score -5 on a max-5
question (negative scores are not clipped up), the pipeline produces skill
accuracy -100 and overall score -100. -/
theorem C3_counterexample :
    parseExcelData wbNeg = Except.ok caNeg ∧
    stNeg ∈ caNeg.students ∧ spNeg ∈ stNeg.skillPerformances ∧
    spNeg.accuracy < 0 ∧ stNeg.overallScore < 0 := by decide

/-- C3 amended: accuracy and overallScore never exceed 100 (scores are
clipped to maxMarks from above); they lie in [0,100] whenever every
parseable score cell in the results sheet and every registered maxMarks is
nonnegative — negative raw scores are not clipped and push accuracy below
zero. -/
theorem C3_accuracy_bounds :
    ∀ (wb : Workbook) (ca : ClassAnalysis), parseExcelData wb = Except.ok ca →
      ∀ st ∈ ca.students,
      (st.overallScore ≤ 100 ∧ ∀ sp ∈ st.skillPerformances, sp.accuracy ≤ 100) ∧
      ((∀ row ∈ resultsRowsOf wb, ∀ kv ∈ row, 0 ≤ (jsNumber kv.2).getD 0) →
        (∀ p ∈ (buildTaxonomy (mappingRowsOf wb)).1, 0 ≤ p.2.maxMarks) →
        0 ≤ st.overallScore ∧ ∀ sp ∈ st.skillPerformances, 0 ≤ sp.accuracy) := by
  intro wb ca hok st hst
  obtain ⟨hms, hca⟩ := parse_ok_iff.mp hok
  subst hca
  rw [analyze_students] at hst
  obtain ⟨row, hrow, hps⟩ := List.mem_filterMap.mp hst
  obtain ⟨hperfs, hweak, hov⟩ := processStudent_proj hps
  constructor
  · obtain ⟨hle, hletot⟩ :=
      scoreFold_le (buildTaxonomy (mappingRowsOf wb)).1 (buildTaxonomy (mappingRowsOf wb)).2 row
    constructor
    · rw [hov]
      exact accuracyOf_le_100 hletot
    · intro sp hsp
      rw [hperfs] at hsp
      obtain ⟨p, hp, hpe⟩ := List.mem_map.mp hsp
      rw [← hpe]
      exact accuracyOf_le_100 (hle p hp)
  · intro hrows hqm
    have hrownn : ∀ kv ∈ row, ∀ q : ℚ, jsNumber kv.2 = some q → 0 ≤ q := by
      intro kv hkv q hq
      have h2 := hrows row hrow kv hkv
      rw [hq] at h2
      simpa using h2
    obtain ⟨hnn, hnntot⟩ :=
      scoreFold_nonneg (buildTaxonomy (mappingRowsOf wb)).2 hqm hrownn
    constructor
    · rw [hov]
      exact accuracyOf_nonneg hnntot
    · intro sp hsp
      rw [hperfs] at hsp
      obtain ⟨p, hp, hpe⟩ := List.mem_map.mp hsp
      rw [← hpe]
      exact accuracyOf_nonneg (hnn p hp)

/-- Witness for C3 on the demo workbook and its first student. -/
theorem C3_witness :
    bobDemo.overallScore ≤ 100 ∧ ∀ sp ∈ bobDemo.skillPerformances, sp.accuracy ≤ 100 :=
  (C3_accuracy_bounds wbDemo caDemo parse_wbDemo bobDemo (by decide)).1

/-- C4 counterexample: the claim says a row lacking a resolvable studentId is
excluded, but the row `[("Student Name", "Ben")]` — with no id cell at all —
is kept: JS `String(undefined)` is the truthy string "undefined", which
becomes the studentId. -/
theorem C4_counterexample :
    parseExcelData wbNoId = Except.ok caNoId ∧
    cell [("Student Name", CellValue.str "Ben")] "Student ID" = CellValue.absent ∧
    cell [("Student Name", CellValue.str "Ben")] "StudentID" = CellValue.absent ∧
    caNoId.students.map (fun st => st.studentId) = ["undefined"] := by decide

/-- C4 amended: a raw row is excluded iff its resolved student-name cell is
falsy (absent, empty string, or the number 0) or its resolved student-id
cell is the empty string; a row with no id cell at all is kept with
studentId "undefined". Exclusion is silent and an excluded row has no
influence: deleting it from the results sheet leaves the entire parse
result unchanged. -/
theorem C4_row_exclusion :
    (∀ (qm : Record QuestionMapping) (sm : Record String) (row : Record CellValue),
      processStudent qm sm row = none ↔
        (truthy (jsOr (cell row "Student Name") (cell row "StudentName")) = false ∨
          jsOr (cell row "Student ID") (cell row "StudentID") = CellValue.str "")) ∧
    (∀ (m pre post : List (Record CellValue)) (r : Record CellValue),
      processStudent (buildTaxonomy m).1 (buildTaxonomy m).2 r = none →
      parseExcelData (mkWB m (pre ++ r :: post)) = parseExcelData (mkWB m (pre ++ post))) := by
  constructor
  · intro qm sm row
    rw [processStudent_none_iff]
    constructor
    · rintro (h | h)
      · left
        simpa using h
      · right
        exact jsString_eq_empty_iff.mp h
    · rintro (h | h)
      · left
        simpa using h
      · right
        exact jsString_eq_empty_iff.mpr h
  · intro m pre post r hnone
    rw [parse_mkWB, parse_mkWB]
    congr 1
    apply analyze_eq_of_students
    simp only [List.filterMap_append, List.filterMap_cons, hnone]

/-- Witness for C4: the nameless demo row is dropped, and removing it from a
sheet leaves the parse unchanged. -/
theorem C4_witness :
    processStudent (buildTaxonomy mappingA).1 (buildTaxonomy mappingA).2 rowNoName = none ∧
    parseExcelData (mkWB mappingA [rowNoName]) = parseExcelData (mkWB mappingA []) :=
  ⟨(C4_row_exclusion.1 (buildTaxonomy mappingA).1 (buildTaxonomy mappingA).2 rowNoName).mpr
      (Or.inl (by decide)),
   C4_row_exclusion.2 mappingA [] [] rowNoName
     ((C4_row_exclusion.1 (buildTaxonomy mappingA).1 (buildTaxonomy mappingA).2 rowNoName).mpr
       (Or.inl (by decide)))⟩

/-- C9: parsing fails with exactly the FormatError message iff one of the two
required sheets is missing — independently of any sheet contents, with no
partial result (the error is the whole result) — and succeeds with some
`ClassAnalysis` whenever both sheets are present. -/
theorem C9_sheet_validation :
    (∀ wb : Workbook,
      ("QuestionsMapping" ∉ sheetNames wb ∨ "StudentResults" ∉ sheetNames wb) ↔
        parseExcelData wb = Except.error
          "Invalid File: Must contain \x27QuestionsMapping\x27 and \x27StudentResults\x27 sheets.") ∧
    (∀ wb : Workbook, "QuestionsMapping" ∈ sheetNames wb →
      "StudentResults" ∈ sheetNames wb → ∃ ca, parseExcelData wb = Except.ok ca) := by
  constructor
  · intro wb
    constructor
    · intro h
      unfold parseExcelData
      rw [if_neg]
      rintro ⟨h1, h2⟩
      rcases h with h | h
      · exact h h1
      · exact h h2
    · intro h
      by_cases h1 : "QuestionsMapping" ∈ sheetNames wb
      · right
        intro h2
        unfold parseExcelData at h
        rw [if_pos ⟨h1, h2⟩] at h
        simp at h
      · exact Or.inl h1
  · intro wb h1 h2
    exact ⟨analyze (mappingRowsOf wb) (resultsRowsOf wb), parse_ok_iff.mpr ⟨⟨h1, h2⟩, rfl⟩⟩

/-- Witness for C9: the empty workbook fails with the exact message; the demo
workbook parses. -/
theorem C9_witness :
    parseExcelData ⟨[]⟩ = Except.error
      "Invalid File: Must contain \x27QuestionsMapping\x27 and \x27StudentResults\x27 sheets." ∧
    ∃ ca, parseExcelData wbDemo = Except.ok ca :=
  ⟨(C9_sheet_validation.1 ⟨[]⟩).mp (Or.inl (by decide)),
   C9_sheet_validation.2 wbDemo (by decide) (by decide)⟩

/-- C10 counterexample: the claim says only rows with an empty questionNo or
skillCode or a non-finite maxMarks are skipped, but `rowMaxZero` — with
questionNo "Q1", skillCode "A" and the finite max-marks number 0 — is
skipped: the falsy 0 falls through the `||` alias chain to the absent
alias, `Number(undefined)` is NaN, and the taxonomy stays empty. -/
theorem C10_counterexample :
    cell rowMaxZero "Max Marks" = CellValue.num 0 ∧
    resolvedQNo rowMaxZero = "Q1" ∧
    resolvedSCode rowMaxZero = "A" ∧
    buildTaxonomy [rowMaxZero] = ([], []) := by decide

/-- C10 amended: the taxonomy builder skips a row exactly when the
alias-resolved trimmed questionNo or skillCode is empty or the
alias-resolved maxMarks is NaN — where JS `||` resolution skips falsy cells,
so a max-marks cell holding 0 falls through to the absent alias and is NaN,
and absent text cells stringify to "undefined". Every other row is
registered under its questionNo with its skill metadata, a later duplicate
overwriting the earlier entry while all other question keys are untouched. -/
theorem C10_taxonomy_row_registration :
    ∀ (s : Record QuestionMapping × Record String) (row : Record CellValue),
      ((resolvedQNo row = "" ∨ resolvedSCode row = "" ∨ resolvedMax row = none) →
        taxStep s row = s) ∧
      (∀ mx : ℚ, resolvedMax row = some mx → resolvedQNo row ≠ "" →
        resolvedSCode row ≠ "" →
        rget (taxStep s row).1 (resolvedQNo row) =
          some ⟨resolvedQNo row, resolvedSCode row, resolvedSDesc row, mx⟩ ∧
        rget (taxStep s row).2 (resolvedSCode row) = some (resolvedSDesc row) ∧
        (∀ k, k ≠ resolvedQNo row → rget (taxStep s row).1 k = rget s.1 k)) := by
  intro s row
  constructor
  · intro h
    rcases h with h | h | h
    · rcases hmx : resolvedMax row with _ | mx
      · exact taxStep_eq_nan hmx
      · exact taxStep_eq_skip hmx (Or.inl h)
    · rcases hmx : resolvedMax row with _ | mx
      · exact taxStep_eq_nan hmx
      · exact taxStep_eq_skip hmx (Or.inr h)
    · exact taxStep_eq_nan h
  · intro mx hmx h1 h2
    rw [taxStep_eq_register hmx h1 h2]
    refine ⟨rget_rset_self _ _ _, rget_rset_self _ _ _, fun k hk => rget_rset_ne _ _ _ _ hk⟩

theorem student_keys {qm : Record QuestionMapping} {sm : Record String}
    {row : Record CellValue} {st : StudentAnalysis}
    (h : processStudent qm sm row = some st) :
    st.skillPerformances.map (fun sp => sp.skillCode) = (jsEnum sm).map Prod.fst := by
  obtain ⟨hperf, _, _⟩ := processStudent_proj h
  rw [hperf, List.map_map]
  have hcomp : ((fun sp => sp.skillCode) ∘ mkPerf sm) = Prod.fst := by
    funext p
    rfl
  rw [hcomp]
  exact scoreFold_keys qm sm row

/-- C2: with N the number of distinct registered skill codes, every produced
StudentAnalysis has exactly N skillPerformances; and a skill none of whose
questions the student answered (no column of the row maps to it with a
parseable score) appears with totalMaxMarks 0, accuracy 0 and level
Critical. -/
theorem C2_skill_coverage :
    (∀ (wb : Workbook) (ca : ClassAnalysis), parseExcelData wb = Except.ok ca →
      ∀ st ∈ ca.students,
        st.skillPerformances.length = ((buildTaxonomy (mappingRowsOf wb)).2).length) ∧
    (∀ (mRows : List (Record CellValue)) (row : Record CellValue)
        (st : StudentAnalysis) (code : String),
      processStudent (buildTaxonomy mRows).1 (buildTaxonomy mRows).2 row = some st →
      ¬ answered (buildTaxonomy mRows).1 row code →
      ∀ sp ∈ st.skillPerformances, sp.skillCode = code →
        sp.totalMaxMarks = 0 ∧ sp.accuracy = 0 ∧ sp.level = ProficiencyLevel.Critical) := by
  constructor
  · intro wb ca hok st hst
    obtain ⟨hms, hca⟩ := parse_ok_iff.mp hok
    subst hca
    rw [analyze_students] at hst
    obtain ⟨row, hrow, hps⟩ := List.mem_filterMap.mp hst
    have hk := congrArg List.length (student_keys hps)
    simpa [length_jsEnum] using hk
  · intro mRows row st code hps hans sp hsp hcode
    obtain ⟨hperf, _, _⟩ := processStudent_proj hps
    rw [hperf] at hsp
    obtain ⟨p, hp, hpe⟩ := List.mem_map.mp hsp
    obtain ⟨pk, pv⟩ := p
    have hp1 : pk = code := by
      rw [← hcode, ← hpe]
      rfl
    subst hp1
    have hkeys := scoreFold_keys (buildTaxonomy mRows).1 (buildTaxonomy mRows).2 row
    have hnd : (((scoreFold (buildTaxonomy mRows).1 (buildTaxonomy mRows).2 row).1).map
        Prod.fst).Nodup := by
      rw [hkeys]
      exact nodupKeys_jsEnum (buildTaxonomy_nodup mRows).2
    have hrg := rget_of_mem_nodupKeys hnd hp
    rw [scoreFold_untouched hans, rget_seedAcc] at hrg
    have hpv : pv = ((0 : ℚ), (0 : ℚ)) := by
      cases hsm : rget (jsEnum (buildTaxonomy mRows).2) pk with
      | none => rw [hsm] at hrg; simp at hrg
      | some d =>
        rw [hsm] at hrg
        simpa using hrg.symm
    subst hpv
    rw [← hpe]
    refine ⟨rfl, ?_, ?_⟩
    · show accuracyOf 0 0 = 0
      unfold accuracyOf
      norm_num
    · show classify (accuracyOf 0 0) = ProficiencyLevel.Critical
      have h0 : accuracyOf 0 0 = 0 := by
        unfold accuracyOf
        norm_num
      rw [h0]
      decide

/-- Witness for C2: Bob has one entry per registered skill on the demo
workbook, and the never-answered skill A of the id-less student carries
(0, 0, Critical). -/
theorem C2_witness :
    bobDemo.skillPerformances.length = ((buildTaxonomy (mappingRowsOf wbDemo)).2).length ∧
    (spNoId.totalMaxMarks = 0 ∧ spNoId.accuracy = 0 ∧
      spNoId.level = ProficiencyLevel.Critical) := by
  constructor
  · exact C2_skill_coverage.1 wbDemo caDemo parse_wbDemo bobDemo (by decide)
  · apply C2_skill_coverage.2 mappingA [("Student Name", CellValue.str "Ben")] stNoId "A"
    · decide
    · rintro ⟨kv, hkv, mp, hmp, hc2, hsome⟩
      simp only [List.mem_singleton] at hkv
      subst hkv
      rw [(by decide : rget (buildTaxonomy mappingA).1 (jsTrim "Student Name") = none)] at hmp
      exact Option.noConfusion hmp
    · decide
    · decide

/-- Lookup in a fold of `rset` registrations keyed by the folded list. -/
theorem rget_mkStat_fold (sm0 : Record String) (students : List StudentAnalysis) :
    ∀ (sm : Record String) (s0 : Record SkillStat) (code : String),
      rget (sm.foldl (fun stats p => rset stats p.1 (mkStat sm0 students p.1)) s0) code =
        if code ∈ sm.map Prod.fst then some (mkStat sm0 students code) else rget s0 code := by
  intro sm
  induction sm with
  | nil =>
    intro s0 code
    simp
  | cons p sm ih =>
    intro s0 code
    rw [List.foldl_cons, ih]
    by_cases hk : code ∈ sm.map Prod.fst
    · rw [if_pos hk, if_pos (by simp only [List.map_cons, List.mem_cons]; exact Or.inr hk)]
    · rw [if_neg hk]
      by_cases hpk : p.1 = code
      · rw [if_pos (by simp only [List.map_cons, List.mem_cons]; exact Or.inl hpk.symm)]
        rw [hpk]
        exact rget_rset_self _ _ _
      · rw [rget_rset_ne _ _ _ _ (fun h => hpk h.symm)]
        rw [if_neg]
        simp only [List.map_cons, List.mem_cons]
        rintro (h | h)
        · exact hpk h.symm
        · exact hk h

theorem rget_mkSkillStats {sm : Record String} {students : List StudentAnalysis}
    {code : String} :
    rget (mkSkillStats sm students) code =
      if code ∈ (jsEnum sm).map Prod.fst then some (mkStat sm students code) else none := by
  unfold mkSkillStats
  rw [rget_mkStat_fold sm students (jsEnum sm) [] code]
  rfl

/-- C5: in every parse result, the four level counts of every SkillStat sum
to the total number of produced students. -/
theorem C5_level_counts_partition :
    ∀ (wb : Workbook) (ca : ClassAnalysis), parseExcelData wb = Except.ok ca →
      ∀ (code : String) (stat : SkillStat), rget ca.skillStats code = some stat →
        stat.strongCount + stat.moderateCount + stat.weakCount + stat.criticalCount =
          ca.students.length := by
  intro wb ca hok code stat hstat
  obtain ⟨hms, hca⟩ := parse_ok_iff.mp hok
  subst hca
  rw [analyze_skillStats, rget_mkSkillStats] at hstat
  by_cases hmem : code ∈ (jsEnum ((buildTaxonomy (mappingRowsOf wb)).2)).map Prod.fst
  case neg =>
    rw [if_neg hmem] at hstat
    simp at hstat
  rw [if_pos hmem] at hstat
  have hstat2 := (Option.some.inj hstat).symm
  subst hstat2
  unfold mkStat
  dsimp only
  rw [four_level_partition]
  apply length_filterMap_of_isSome
  intro s hs
  rw [analyze_students] at hs
  obtain ⟨row, hrow, hps⟩ := List.mem_filterMap.mp hs
  have hk := student_keys hps
  have hcode : code ∈ s.skillPerformances.map (fun sp => sp.skillCode) := by
    rw [hk]
    exact hmem
  obtain ⟨sp, hsp, hspc⟩ := List.mem_map.mp hcode
  have hex : ∃ x, x ∈ s.skillPerformances ∧ (x.skillCode == code) = true :=
    ⟨sp, hsp, by simp [hspc]⟩
  rw [List.find?_isSome]
  exact hex

/-- Witness for C5 at skill A of the demo workbook. -/
theorem C5_witness :
    statADemo.strongCount + statADemo.moderateCount + statADemo.weakCount +
      statADemo.criticalCount = caDemo.students.length :=
  C5_level_counts_partition wbDemo caDemo parse_wbDemo "A" statADemo (by decide)

/-- Witness for C10: the zero-max-marks row is skipped; the first demo
mapping row is registered with max marks 5. -/
theorem C10_witness :
    taxStep (([], []) : Record QuestionMapping × Record String) rowMaxZero = ([], []) ∧
    rget (taxStep (([], []) : Record QuestionMapping × Record String) rowQ1A).1
        (resolvedQNo rowQ1A) =
      some ⟨resolvedQNo rowQ1A, resolvedSCode rowQ1A, resolvedSDesc rowQ1A, 5⟩ :=
  ⟨(C10_taxonomy_row_registration ([], []) rowMaxZero).1 (Or.inr (Or.inr (by decide))),
   ((C10_taxonomy_row_registration ([], []) rowQ1A).2 5 (by decide) (by decide) (by decide)).1⟩

/-- C6: every produced weakestSkills list is sorted ascending by accuracy, is
a permutation of the sub-70 entries of skillPerformances (it contains
exactly those), and is stable: restricted to any single accuracy value it
reproduces the original skill order. -/
theorem C6_weakest_skills :
    ∀ (wb : Workbook) (ca : ClassAnalysis), parseExcelData wb = Except.ok ca →
      ∀ st ∈ ca.students,
        List.Sorted accLe st.weakestSkills ∧
        st.weakestSkills.Perm
          (st.skillPerformances.filter (fun s => decide (s.accuracy < 70))) ∧
        (∀ q : ℚ, st.weakestSkills.filter (fun s => s.accuracy == q) =
          (st.skillPerformances.filter (fun s => decide (s.accuracy < 70))).filter
            (fun s => s.accuracy == q)) := by
  intro wb ca hok st hst
  obtain ⟨hms, hca⟩ := parse_ok_iff.mp hok
  subst hca
  rw [analyze_students] at hst
  obtain ⟨row, hrow, hps⟩ := List.mem_filterMap.mp hst
  obtain ⟨hperf, hweak, hov⟩ := processStudent_proj hps
  refine ⟨?_, ?_, ?_⟩
  · rw [hweak]
    exact List.sorted_insertionSort accLe _
  · rw [hweak]
    exact List.perm_insertionSort accLe _
  · intro q
    rw [hweak]
    exact filter_acc_insertionSort _ q

/-- Witness for C6 on Amy, whose two weakest skills tie at accuracy 30. -/
theorem C6_witness :
    List.Sorted accLe amyDemo.weakestSkills ∧
    amyDemo.weakestSkills.Perm
      (amyDemo.skillPerformances.filter (fun s => decide (s.accuracy < 70))) ∧
    amyDemo.weakestSkills.filter (fun s => s.accuracy == (30 : ℚ)) =
      (amyDemo.skillPerformances.filter (fun s => decide (s.accuracy < 70))).filter
        (fun s => s.accuracy == (30 : ℚ)) := by
  obtain ⟨h1, h2, h3⟩ := C6_weakest_skills wbDemo caDemo parse_wbDemo amyDemo (by decide)
  exact ⟨h1, h2, h3 30⟩

/-- C7 counterexample: the claim says group order is first-encounter
insertion order, but on `wbNum` — skill codes "10" and "2", both array-index
strings — the first encountered primary weakness is "10" (Ann's), yet the
produced groups list starts with group-2: `Object.values(groupsMap)`
enumerates array-index keys in ascending numeric order, not insertion
order. -/
theorem C7_counterexample :
    parseExcelData wbNum = Except.ok caNum ∧
    caNum.students.filterMap primaryCode = ["10", "2"] ∧
    firstDedup (caNum.students.filterMap primaryCode) = ["10", "2"] ∧
    caNum.groups.map (fun g => g.skillCode) = ["2", "10"] := by decide

/-- C7 amended: every group id is the string group- followed by its skill
code, and its member list is the original-order sublist of students whose
primary weakness is that code; a student with empty weakestSkills is in no
group; a student with head weakness pw is in exactly one group, the one
keyed by pw.skillCode. Group order is the JS own-property enumeration order
of the groups object: array-index skill codes first in ascending numeric
value, then the remaining codes in first-encounter insertion order; when no
primary skill code is an array-index string this is exactly first-encounter
insertion order. -/
theorem C7_grouping :
    ∀ (wb : Workbook) (ca : ClassAnalysis), parseExcelData wb = Except.ok ca →
      (∀ g ∈ ca.groups, g.id = "group-" ++ g.skillCode ∧
        g.students = ca.students.filter (fun st => primaryCode st == some g.skillCode)) ∧
      ca.groups.map (fun g => g.skillCode) =
        jsEnumKeys (firstDedup (ca.students.filterMap primaryCode)) ∧
      ((∀ c ∈ ca.students.filterMap primaryCode, isArrayIndex c = false) →
        ca.groups.map (fun g => g.skillCode) =
          firstDedup (ca.students.filterMap primaryCode)) ∧
      (∀ st ∈ ca.students, st.weakestSkills = [] → ∀ g ∈ ca.groups, st ∉ g.students) ∧
      (∀ st ∈ ca.students, ∀ pw, st.weakestSkills.head? = some pw →
        ∃ g ∈ ca.groups, g.skillCode = pw.skillCode ∧ st ∈ g.students ∧
          ∀ g2 ∈ ca.groups, st ∈ g2.students → g2 = g) := by
  intro wb ca hok
  obtain ⟨hms, hca⟩ := parse_ok_iff.mp hok
  subst hca
  rw [analyze_groups]
  obtain ⟨hent, hkeys⟩ :=
    buildGroups_inv ((analyze (mappingRowsOf wb) (resultsRowsOf wb)).students)
  have hentE : ∀ p ∈ jsEnum (buildGroups
      ((analyze (mappingRowsOf wb) (resultsRowsOf wb)).students)),
      p.2.skillCode = p.1 ∧ p.2.id = "group-" ++ p.1 ∧
        p.2.students = ((analyze (mappingRowsOf wb) (resultsRowsOf wb)).students).filter
          (fun st => primaryCode st == some p.1) :=
    fun p hp => hent p (mem_jsEnum.mp hp)
  have hnd : ((buildGroups
      ((analyze (mappingRowsOf wb) (resultsRowsOf wb)).students)).map Prod.fst).Nodup := by
    rw [hkeys]
    exact nodup_firstDedup _
  have hndE : ((jsEnum (buildGroups
      ((analyze (mappingRowsOf wb) (resultsRowsOf wb)).students))).map Prod.fst).Nodup :=
    nodupKeys_jsEnum hnd
  have horder : ((jsEnum (buildGroups
        ((analyze (mappingRowsOf wb) (resultsRowsOf wb)).students))).map
          (fun p => p.2)).map (fun g => g.skillCode) =
      jsEnumKeys (firstDedup
        (((analyze (mappingRowsOf wb) (resultsRowsOf wb)).students).filterMap
          primaryCode)) := by
    rw [List.map_map]
    have hstep : (jsEnum (buildGroups
          ((analyze (mappingRowsOf wb) (resultsRowsOf wb)).students))).map
            ((fun g => g.skillCode) ∘ (fun p => p.2)) =
        (jsEnum (buildGroups
          ((analyze (mappingRowsOf wb) (resultsRowsOf wb)).students))).map Prod.fst :=
      List.map_congr_left (fun p hp => (hentE p hp).1)
    rw [hstep, keys_jsEnum, hkeys]
  refine ⟨?_, horder, ?_, ?_, ?_⟩
  · intro g hg
    obtain ⟨p, hp, hpe⟩ := List.mem_map.mp hg
    obtain ⟨h1, h2, h3⟩ := hentE p hp
    constructor
    · rw [← hpe, h2, h1]
    · rw [← hpe, h3, h1]
  · intro hnoidx
    rw [horder]
    exact jsEnumKeys_eq_self (fun c hc => hnoidx c (mem_firstDedup.mp hc))
  · intro st hstm hempty g hg
    obtain ⟨p, hp, hpe⟩ := List.mem_map.mp hg
    obtain ⟨h1, h2, h3⟩ := hentE p hp
    rw [← hpe, h3]
    intro hmem
    have hpred := (List.mem_filter.mp hmem).2
    rw [(by simp [primaryCode, hempty] :
      primaryCode st = (none : Option String))] at hpred
    simp at hpred
  · intro st hstm pw hpw
    have hpc : primaryCode st = some pw.skillCode := by
      simp [primaryCode, hpw]
    have hc : pw.skillCode ∈ (jsEnum (buildGroups
        ((analyze (mappingRowsOf wb) (resultsRowsOf wb)).students))).map Prod.fst := by
      rw [(keys_jsEnum_perm _).mem_iff, hkeys, mem_firstDedup]
      exact List.mem_filterMap.mpr ⟨st, hstm, hpc⟩
    obtain ⟨⟨k1, g1⟩, hp, hpk⟩ := List.mem_map.mp hc
    simp only at hpk
    subst hpk
    obtain ⟨h1, h2, h3⟩ := hentE _ hp
    simp only at h1 h2 h3
    refine ⟨g1, List.mem_map.mpr ⟨_, hp, rfl⟩, h1, ?_, ?_⟩
    · rw [h3]
      apply List.mem_filter.mpr
      refine ⟨hstm, ?_⟩
      rw [hpc]
      simp
    · intro g2 hg2 hst2
      obtain ⟨⟨k2, g2v⟩, hp2, hpe2⟩ := List.mem_map.mp hg2
      simp only at hpe2
      subst hpe2
      obtain ⟨h21, h22, h23⟩ := hentE _ hp2
      simp only at h21 h22 h23
      rw [h23] at hst2
      have hpred := (List.mem_filter.mp hst2).2
      rw [hpc] at hpred
      have hk2 : k2 = pw.skillCode := by
        have h4 := of_decide_eq_true hpred
        exact h4.symm
      subst hk2
      exact values_eq_of_mem_nodupKeys hndE hp2 hp

/-- Witness for C7: on the demo workbook no skill code is an array index, so
group order is plain first-encounter order, and Bob lands in exactly one
group, the one for skill B. -/
theorem C7_witness :
    caDemo.groups.map (fun g => g.skillCode) =
      firstDedup (caDemo.students.filterMap primaryCode) ∧
    ∃ g ∈ caDemo.groups, g.skillCode = spBobB.skillCode ∧ bobDemo ∈ g.students ∧
      ∀ g2 ∈ caDemo.groups, bobDemo ∈ g2.students → g2 = g :=
  ⟨(C7_grouping wbDemo caDemo parse_wbDemo).2.2.1 (by decide),
   (C7_grouping wbDemo caDemo parse_wbDemo).2.2.2.2 bobDemo (by decide) spBobB (by decide)⟩

/-- C8: weakestSkillsClasswide has length min(3, number of skills) and is
the skill-code image of the first three stats sorted ascending by average
accuracy; every kept stat's average is at most every dropped stat's. -/
theorem C8_classwide_weakest :
    ∀ (wb : Workbook) (ca : ClassAnalysis), parseExcelData wb = Except.ok ca →
      ca.weakestSkillsClasswide.length = min 3 ca.skillStats.length ∧
      ca.weakestSkillsClasswide =
        ((List.insertionSort statLe (ca.skillStats.map (fun p => p.2))).take 3).map
          (fun s => s.skillCode) ∧
      ∀ a ∈ (List.insertionSort statLe (ca.skillStats.map (fun p => p.2))).take 3,
        ∀ b ∈ (List.insertionSort statLe (ca.skillStats.map (fun p => p.2))).drop 3,
          a.avgAccuracy ≤ b.avgAccuracy := by
  intro wb ca hok
  obtain ⟨hms, hca⟩ := parse_ok_iff.mp hok
  subst hca
  refine ⟨?_, rfl, ?_⟩
  · show (((List.insertionSort statLe
        (((analyze (mappingRowsOf wb) (resultsRowsOf wb)).skillStats).map
          (fun p => p.2))).take 3).map (fun s => s.skillCode)).length = _
    rw [List.length_map, List.length_take, List.length_insertionSort, List.length_map]
  · intro a ha b hb
    have hsorted : List.Sorted statLe (List.insertionSort statLe
        (((analyze (mappingRowsOf wb) (resultsRowsOf wb)).skillStats).map (fun p => p.2))) :=
      List.sorted_insertionSort statLe _
    have hsplit := List.take_append_drop 3 (List.insertionSort statLe
      (((analyze (mappingRowsOf wb) (resultsRowsOf wb)).skillStats).map (fun p => p.2)))
    rw [← hsplit] at hsorted
    exact (List.pairwise_append.mp hsorted).2.2 a ha b hb

/-- Witness for C8 on the demo workbook (3 skills, so length 3). -/
theorem C8_witness :
    caDemo.weakestSkillsClasswide.length = min 3 caDemo.skillStats.length :=
  (C8_classwide_weakest wbDemo caDemo parse_wbDemo).1

end RemedialPlanner
